import Mathlib

/-!
# Verification of the columnar-storage write path

A shallow embedding of the write path of the rust-table columnar storage
engine (src/storage.rs, src/storage_inserter.rs, src/nulls_bitmap.rs), with
proofs of the specification's claims about it.

Modelling conventions:

* Machine integers are mathematical Int/Nat. No arithmetic is ever performed
  on column values by the write path (they are only moved and serialized), so
  i8/i32/i64 payloads are carried as Int and reduced mod 2^width only at byte
  serialization. f32 payloads are carried as their IEEE-754 bit pattern
  (a Nat below 2^32); the write path never performs floating-point arithmetic
  on them, it only stores and reinterprets them.
* Byte buffers (Vec of u8, the storage backend) are List Nat of byte values.
* Fallible Rust functions returning StorageResult are embedded as Except
  StorageError; functions that mutate through a mut reference and return a
  Result return a pair of the result and the updated state, so that "the
  state is unchanged on error" is expressible.
* Rust panics (out-of-bounds indexing, unwrap on a validated value) are
  unreachable under the documented preconditions; on those dead branches the
  model picks a harmless default, noted at each site.
-/

/-- Equality of embedded Result values is decidable, so that concrete runs of
the write path can be checked by evaluation. -/
instance {ε α : Type} [DecidableEq ε] [DecidableEq α] : DecidableEq (Except ε α) :=
  fun x y =>
    match x, y with
    | Except.ok a, Except.ok b =>
      if h : a = b then Decidable.isTrue (by rw [h])
      else Decidable.isFalse (fun hc => h (Except.ok.inj hc))
    | Except.error a, Except.error b =>
      if h : a = b then Decidable.isTrue (by rw [h])
      else Decidable.isFalse (fun hc => h (Except.error.inj hc))
    | Except.ok _, Except.error _ => Decidable.isFalse (fun hc => Except.noConfusion hc)
    | Except.error _, Except.ok _ => Decidable.isFalse (fun hc => Except.noConfusion hc)

/-- Little-endian byte serialization: the n low-order bytes of x, least
significant first.  Models how a fixed-width machine integer is laid out in
memory on the (little-endian) host, which get_slice_bytes exposes. -/
def leBytes : Nat → Nat → List Nat
  | 0, _ => []
  | n + 1, x => x % 256 :: leBytes n (x / 256)

theorem leBytes_length (n x : Nat) : (leBytes n x).length = n := by
  induction n generalizing x with
  | zero => rfl
  | succ n ih => simp [leBytes, ih]

/-- Rust (v as usize) for a signed value v: two's-complement reinterpretation
at 64 bits. -/
def i32AsUsize (v : Int) : Nat := (v % (2 ^ 64)).toNat

/-- Column encodings (src/encoding.rs of the newer generation: the Encoding
enum used by storage_inserter.rs; only Raw is produced by the writer). -/
inductive Encoding
  | raw
  | delta
  | rle
deriving DecidableEq, Repr

/-- Chunk compression codecs (src/compression.rs); the writer currently uses
None for every chunk (storage_inserter.rs line 346). -/
inductive Compression
  | none
  | snappy
deriving DecidableEq, Repr

/-- src/storage.rs ColumnDatatype. FixedLength carries an i32 size. -/
inductive ColumnDatatype
  | byte
  | int32
  | int64
  | float
  | fixedLength (size : Int)
  | variableLength
deriving DecidableEq, Repr

/-- src/storage.rs DatatypeInfo.  The revision of storage.rs under src stores
value_size as a plain usize (0 for VariableLength), but storage_inserter.rs
line 266 unwraps it as an Option; the spec fixes value_size as an Option that
is absent only for VariableLength, which is what we model. -/
structure DatatypeInfo where
  is_numeric : Bool
  is_fixed_size : Bool
  value_size : Option Nat
deriving DecidableEq, Repr

/-- DatatypeInfo::new (src/storage.rs lines 60-71). -/
def DatatypeInfo.new : ColumnDatatype → DatatypeInfo
  | ColumnDatatype.byte => ⟨true, true, some 1⟩
  | ColumnDatatype.int32 => ⟨true, true, some 4⟩
  | ColumnDatatype.int64 => ⟨true, true, some 8⟩
  | ColumnDatatype.float => ⟨true, true, some 4⟩
  | ColumnDatatype.fixedLength s => ⟨false, true, some (i32AsUsize s)⟩
  | ColumnDatatype.variableLength => ⟨false, false, none⟩

/-- src/storage.rs Column. -/
structure Column where
  name : String
  datatype : ColumnDatatype
  datatype_info : DatatypeInfo
  num_column : Nat
deriving DecidableEq, Repr

/-- src/storage.rs ColumnBuilder. -/
structure ColumnBuilder where
  name : String
  datatype : ColumnDatatype
deriving DecidableEq, Repr

/-- src/storage.rs ColumnValue.  Byte/Int32/Int64 payloads are mathematical
integers (see the module comment); Float carries the IEEE-754 bit pattern. -/
inductive ColumnValue
  | null
  | byte (v : Int)
  | int32 (v : Int)
  | int64 (v : Int)
  | float (bits : Nat)
  | fixedLength (v : List Nat)
  | variableLength (v : List Nat)
deriving DecidableEq, Repr

/-- Whether a value is the Null variant. -/
def ColumnValue.isNull : ColumnValue → Bool
  | ColumnValue.null => true
  | _ => false

/-- src/error.rs / src/storage.rs StorageError.  The io::Error payload of
IoError and the PathBuf payload of InvalidPath carry no information the write
path inspects, so they are abstracted. -/
inductive StorageError
  | fileAlreadyExists
  | invalidPath
  | invalidFormat (msg : String)
  | ioError
  | invalidNumberOfColumns (got expected : Nat)
  | typeError
  | invalidLength (got expected : Nat)
deriving DecidableEq, Repr

/-- src/proto_structs.rs Stripe: one stripe-directory entry. -/
structure Stripe where
  absolute_offset : Nat
  num_rows : Nat
deriving DecidableEq, Repr

/-- src/proto_structs.rs ColumnChunkHeader. -/
structure ColumnChunkHeader where
  relative_offset : Nat
  compressed_size : Nat
  uncompressed_size : Nat
  encoding : Encoding
  compression : Compression
deriving DecidableEq, Repr

/-- src/proto_structs.rs StripeHeader. -/
structure StripeHeader where
  num_rows : Nat
  column_chunks : List ColumnChunkHeader
  stripe_size : Nat
deriving DecidableEq, Repr

/-- src/storage.rs Storage.  The backend (a File or an in-memory Cursor) is
modelled by its byte contents; the write path only ever appends, so the seek
position is the buffer length. -/
structure Storage where
  num_rows : Nat
  columns : List Column
  backend : List Nat
  stripes : List Stripe
deriving DecidableEq, Repr

/-- The duplicate-name scan of Storage::init (src/storage.rs lines 119-126):
walking the builders in order, the first column name already seen before. -/
def firstDuplicate : List ColumnBuilder → List String → Option String
  | [], _ => none
  | c :: rest, seen =>
    if seen.contains c.name then some c.name else firstDuplicate rest (c.name :: seen)

/-- The column-construction loop of Storage::init (src/storage.rs lines
136-145): each column gets its DatatypeInfo and its position as num_column. -/
def mkColumns : List ColumnBuilder → Nat → List Column
  | [], _ => []
  | cb :: rest, idx =>
    { name := cb.name, datatype := cb.datatype,
      datatype_info := DatatypeInfo.new cb.datatype, num_column := idx }
      :: mkColumns rest (idx + 1)

/-- Storage::init (src/storage.rs lines 117-148): reject duplicated column
names with InvalidFormat, otherwise build the columns over the given backend.
Note that this revision of init performs no write to the backend. -/
def Storage.init (backend : List Nat) (builder : List ColumnBuilder) :
    Except StorageError Storage :=
  match firstDuplicate builder [] with
  | some name =>
    Except.error (StorageError.invalidFormat
      ("Column " ++ name ++ " is specified more than once"))
  | none =>
    Except.ok { num_rows := 0, columns := mkColumns builder 0,
                backend := backend, stripes := [] }

/-- StorageBuilder::in_memory (src/storage.rs lines 318-321): a fresh
in-memory cursor is an empty byte vector. -/
def StorageBuilder.in_memory (builder : List ColumnBuilder) : Except StorageError Storage :=
  Storage.init [] builder

def Storage.num_columns (s : Storage) : Nat := s.columns.length

/-- Storage::column (src/storage.rs line 151) indexes self.columns directly;
an out-of-bounds index panics.  The panic is modelled as none. -/
def Storage.column (s : Storage) (idx : Nat) : Option Column := s.columns.get? idx

/-- Storage::column_by_name (src/storage.rs lines 152-154). -/
def Storage.column_by_name (s : Storage) (name : String) : Option Column :=
  s.columns.find? (fun c => c.name == name)

/-- The four instantiations of the NumericValue trait (src/storage.rs lines
404-450): Byte = i8, Int32 = i32, Int64 = i64, Float = f32. -/
inductive NumKind
  | byte
  | int32
  | int64
  | float
deriving DecidableEq, Repr

/-- The byte width of the stored native type (size_of of i8/i32/i64/f32). -/
def NumKind.width : NumKind → Nat
  | NumKind.byte => 1
  | NumKind.int32 => 4
  | NumKind.int64 => 8
  | NumKind.float => 4

/-- NumericValue::null_value: i8::MIN, i32::MIN, i64::MIN, and for f32 the
sentinel f32::NEG_INFINITY, carried as its IEEE-754 bit pattern 0xFF800000. -/
def NumKind.null_value : NumKind → Int
  | NumKind.byte => -(2 ^ 7)
  | NumKind.int32 => -(2 ^ 31)
  | NumKind.int64 => -(2 ^ 63)
  | NumKind.float => 0xFF800000

/-- NumericValue::extract_value_exact: succeeds exactly on the matching
ColumnValue variant. -/
def NumKind.extract_value_exact : NumKind → ColumnValue → Option Int
  | NumKind.byte, ColumnValue.byte v => some v
  | NumKind.int32, ColumnValue.int32 v => some v
  | NumKind.int64, ColumnValue.int64 v => some v
  | NumKind.float, ColumnValue.float bits => some (bits : Int)
  | _, _ => none

/-- NumericValue::extract_value_or_null (src/storage.rs lines 390-401). -/
def NumKind.extract_value_or_null (k : NumKind) (v : ColumnValue) :
    Except StorageError (Option Int) :=
  match v with
  | ColumnValue.null => Except.ok none
  | _ =>
    match k.extract_value_exact v with
    | some x => Except.ok (some x)
    | none => Except.error StorageError.typeError

/-- The value NumericChunkGenerator::append_values pushes for one input
(src/storage_inserter.rs lines 61-64): the extracted value, or the null
sentinel for Null.  The error branch is unreachable under the validate
precondition (Rust unwraps, i.e. panics); the model returns the sentinel
there. -/
def numStore (k : NumKind) (v : ColumnValue) : Int :=
  match k.extract_value_or_null v with
  | Except.ok (some x) => x
  | Except.ok none => k.null_value
  | Except.error _ => k.null_value

/-- The little-endian memory image of one stored numeric value, as exposed by
get_slice_bytes (src/storage_inserter.rs lines 21-27): its width low-order
bytes of the two's-complement/bit-pattern representation. -/
def NumKind.toLeBytes (k : NumKind) (v : Int) : List Nat :=
  leBytes k.width ((v % (2 ^ (8 * k.width))).toNat)

/-- Rust (n as i32) for a vector length (src/storage_inserter.rs line 174):
two's-complement wrap to 32 bits. -/
def lenAsI32 (n : Nat) : Int := (n : Int).bmod (2 ^ 32)

/-- The mutable state of one chunk generator (src/storage_inserter.rs):
NumericChunkGenerator (its values buffer), FixedLengthChunkGenerator (its
value_size, nulls and values buffers) and VariableLengthChunkGenerator (its
sizes and values buffers).  The scratch encoded_chunk_buffer is cleared and
rebuilt from the other fields on every get_encoded_chunk call, so it is not
part of the state. -/
inductive ChunkGen
  | numeric (kind : NumKind) (values : List Int)
  | fixedLength (value_size : Nat) (nulls : List Bool) (values : List Nat)
  | variableLength (sizes : List Int) (values : List Nat)
deriving DecidableEq, Repr

/-- ChunkGenerator::validate_value for the three generators
(src/storage_inserter.rs lines 54-57, 99-111, 161-167). -/
def ChunkGen.validate_value : ChunkGen → ColumnValue → Except StorageError Unit
  | ChunkGen.numeric kind _, v =>
    match kind.extract_value_or_null v with
    | Except.ok _ => Except.ok ()
    | Except.error e => Except.error e
  | ChunkGen.fixedLength value_size _ _, v =>
    match v with
    | ColumnValue.null => Except.ok ()
    | ColumnValue.fixedLength bytes =>
      if bytes.length = value_size then Except.ok ()
      else Except.error (StorageError.invalidLength bytes.length value_size)
    | _ => Except.error StorageError.typeError
  | ChunkGen.variableLength _ _, v =>
    match v with
    | ColumnValue.null => Except.ok ()
    | ColumnValue.variableLength _ => Except.ok ()
    | _ => Except.error StorageError.typeError

/-- ChunkGenerator::append_values for the three generators
(src/storage_inserter.rs lines 59-67, 113-125, 169-181), consuming the value
iterator one element at a time.  For fixed- and variable-length generators a
value of a non-matching variant is unreachable under the validate
precondition (Rust panics there); the model skips it. -/
def ChunkGen.append_values : ChunkGen → List ColumnValue → ChunkGen
  | g, [] => g
  | ChunkGen.numeric kind values, v :: vs =>
    ChunkGen.append_values (ChunkGen.numeric kind (values ++ [numStore kind v])) vs
  | ChunkGen.fixedLength value_size nulls values, v :: vs =>
    (match v with
     | ColumnValue.null => ChunkGen.fixedLength value_size (nulls ++ [true]) values
     | ColumnValue.fixedLength bytes =>
       ChunkGen.fixedLength value_size (nulls ++ [false]) (values ++ bytes)
     | _ => ChunkGen.fixedLength value_size nulls values).append_values vs
  | ChunkGen.variableLength sizes values, v :: vs =>
    (match v with
     | ColumnValue.null => ChunkGen.variableLength (sizes ++ [-1]) values
     | ColumnValue.variableLength bytes =>
       ChunkGen.variableLength (sizes ++ [lenAsI32 bytes.length]) (values ++ bytes)
     | _ => ChunkGen.variableLength sizes values).append_values vs

/-- ChunkGenerator::get_encoded_chunk (src/storage_inserter.rs lines 69-72,
127-135, 183-189): numeric chunks are the raw memory image of the values
buffer; fixed-length chunks are the nulls vector expanded to one byte per row
(1 for null, 0 for present) followed by the packed payload bytes;
variable-length chunks are the sizes as little-endian i32s followed by the
payload bytes.  All three carry Encoding::Raw. -/
def ChunkGen.get_encoded_chunk : ChunkGen → Encoding × List Nat
  | ChunkGen.numeric kind values =>
    (Encoding.raw, (values.map kind.toLeBytes).flatten)
  | ChunkGen.fixedLength _ nulls values =>
    (Encoding.raw, nulls.map (fun n => if n then 1 else 0) ++ values)
  | ChunkGen.variableLength sizes values =>
    (Encoding.raw, (sizes.map (fun s => leBytes 4 ((s % (2 ^ 32)).toNat))).flatten ++ values)

/-- ChunkGenerator::reset (src/storage_inserter.rs lines 74-77, 137-141,
191-195): clear the accumulated buffers. -/
def ChunkGen.reset : ChunkGen → ChunkGen
  | ChunkGen.numeric kind _ => ChunkGen.numeric kind []
  | ChunkGen.fixedLength value_size _ _ => ChunkGen.fixedLength value_size [] []
  | ChunkGen.variableLength _ _ => ChunkGen.variableLength [] []

/-- StorageInserter::get_chunk_generator_for_datatype (src/storage_inserter.rs
lines 273-282); the capacity hint only preallocates and is not observable. -/
def get_chunk_generator_for_datatype : ColumnDatatype → ChunkGen
  | ColumnDatatype.byte => ChunkGen.numeric NumKind.byte []
  | ColumnDatatype.int32 => ChunkGen.numeric NumKind.int32 []
  | ColumnDatatype.int64 => ChunkGen.numeric NumKind.int64 []
  | ColumnDatatype.float => ChunkGen.numeric NumKind.float []
  | ColumnDatatype.fixedLength size => ChunkGen.fixedLength (i32AsUsize size) [] []
  | ColumnDatatype.variableLength => ChunkGen.variableLength [] []

/-- The header-building loop of StorageInserter::append_stripe
(src/storage_inserter.rs lines 364-375): walking the compressed chunks zipped
with the encoded chunks, each column chunk records the running relative
offset, its compressed and uncompressed sizes and its tags, and the offset
advances by the compressed size. -/
def buildColumnChunks (rel : Nat) :
    List ((Compression × Encoding × List Nat) × (Encoding × List Nat)) →
      List ColumnChunkHeader
  | [] => []
  | (cc, ec) :: rest =>
    { relative_offset := rel, compressed_size := cc.2.2.length,
      uncompressed_size := ec.2.length, encoding := cc.2.1, compression := cc.1 }
      :: buildColumnChunks (rel + cc.2.2.length) rest

/-- The compression step of StorageInserter::append_stripe
(src/storage_inserter.rs lines 345-347): every chunk is currently tagged
Compression::None and its bytes are passed through unchanged. -/
def compressChunks (stripe : List (Encoding × List Nat)) :
    List (Compression × Encoding × List Nat) :=
  stripe.map (fun ec => (Compression.none, ec.1, ec.2))

/-- The StripeHeader that StorageInserter::append_stripe builds
(src/storage_inserter.rs lines 352-375): stripe_size is the fold of the
compressed chunk sizes, and column_chunks comes from the header loop. -/
def stripeHeaderOf (num_rows : Nat) (stripe : List (Encoding × List Nat)) :
    StripeHeader :=
  { num_rows := num_rows,
    column_chunks := buildColumnChunks 0 ((compressChunks stripe).zip stripe),
    stripe_size :=
      ((compressChunks stripe).map (fun cc => cc.2.2.length)).foldl (· + ·) 0 }

/-- Modelled from the spec: the external framed-struct serializer (capnp
serialize::write_message and the capnp-generated storage_capnp module, which
is not under src).  The spec leaves the concrete framing to that library and
requires only that it be self-delimited; the model fixes one deterministic
byte layout.  No claim depends on the exact bytes produced here. -/
def serializeStripeHeader (h : StripeHeader) : List Nat :=
  leBytes 4 h.num_rows ++ leBytes 8 h.stripe_size ++
    leBytes 4 h.column_chunks.length ++
    (h.column_chunks.map (fun c =>
      leBytes 8 c.relative_offset ++ leBytes 4 c.compressed_size ++
        leBytes 4 c.uncompressed_size)).flatten

/-- Storage::append_stripe, the record-keeping step: push the directory entry
and add the stripe's rows to the storage row count.  The method called at
src/storage_inserter.rs line 392 is absent from the storage.rs revision under
src; this definition follows the same step in the older revision
(src/storage.rs lines 232-237) and step 7 of the spec's stripe algorithm,
which agree. -/
def Storage.append_stripe (s : Storage) (stripe : Stripe) : Storage :=
  { s with stripes := s.stripes ++ [stripe],
           num_rows := s.num_rows + stripe.num_rows }

/-- StorageInserter::append_stripe (src/storage_inserter.rs lines 339-398).
A stripe with no columns returns Ok without touching the storage.  Otherwise
the chunks are compressed (identity under Compression::None), the header is
built at the current backend offset, the header and then each compressed
chunk are written, and the stripe is recorded in the directory.  io_fails
abstracts the backend's fallible writes: when set, the first write reports an
I/O error; the model then leaves the storage unmodified (per the spec, a
failed stripe write never updates the directory). -/
def StorageInserter.append_stripe (io_fails : Bool) (storage : Storage)
    (num_rows : Nat) (stripe : List (Encoding × List Nat)) :
    Except StorageError Storage :=
  if stripe.length = 0 then Except.ok storage
  else if io_fails then Except.error StorageError.ioError
  else
    let compressed_chunks := compressChunks stripe
    let stripe_header := stripeHeaderOf num_rows stripe
    let stripe_header_absolute_offset := storage.backend.length
    let backend2 := storage.backend ++ serializeStripeHeader stripe_header ++
      (compressed_chunks.map (fun cc => cc.2.2)).flatten
    Except.ok (Storage.append_stripe { storage with backend := backend2 }
      { absolute_offset := stripe_header_absolute_offset, num_rows := num_rows })

/-- StorageInserter::num_rows_in_stripe_hint (src/storage_inserter.rs lines
258-270): 64 disk blocks of 4096 bytes divided by the largest numeric column
value size, taking 1 for the size when there is no numeric column.  The getD
models the unwrap at line 266, which cannot fail because every numeric
datatype has a value size. -/
def StorageInserter.num_rows_in_stripe_hint (storage : Storage) : Nat :=
  let disk_block_size : Nat := 4096
  let blocks_in_stripe : Nat := 64
  let sizes := (storage.columns.filter (fun c => c.datatype_info.is_numeric)).map
    (fun c => c.datatype_info.value_size.getD 0)
  let max_size := match sizes with
    | [] => 1
    | x :: xs => xs.foldl Nat.max x
  blocks_in_stripe * disk_block_size / max_size

/-- src/storage_inserter.rs StorageInserter.  The Arc-RwLock sharing of the
Storage is modelled by direct ownership: every claim below concerns a single
inserter, for which the lock discipline makes the accesses equivalent to
sequential ones. -/
structure StorageInserter where
  storage : Storage
  enqueued_rows : List (List ColumnValue)
  chunk_generators : List ChunkGen
  max_rows_in_stripe : Nat
deriving DecidableEq, Repr

/-- StorageInserter::new (src/storage_inserter.rs lines 236-255). -/
def StorageInserter.new (storage : Storage) : StorageInserter :=
  let max_rows_in_stripe := StorageInserter.num_rows_in_stripe_hint storage
  { storage := storage,
    enqueued_rows := [],
    chunk_generators :=
      storage.columns.map (fun c => get_chunk_generator_for_datatype c.datatype),
    max_rows_in_stripe := max_rows_in_stripe }

/-- The column-i value stream fed to generator i during flush
(src/storage_inserter.rs line 313): the i-th cell of every enqueued row.
Enqueued rows always have one cell per column (enqueue_row checks the arity
before buffering), so the out-of-bounds default is unreachable (Rust would
panic). -/
def columnValues (rows : List (List ColumnValue)) (i : Nat) : List ColumnValue :=
  rows.map (fun r => r.getD i ColumnValue.null)

/-- The append loop of flush (src/storage_inserter.rs lines 312-315): each
generator, in column order, consumes its column's values. -/
def appendToGenerators (gens : List ChunkGen) (rows : List (List ColumnValue))
    (i : Nat) : List ChunkGen :=
  match gens with
  | [] => []
  | g :: gs => g.append_values (columnValues rows i) :: appendToGenerators gs rows (i + 1)

/-- The validation loop of enqueue_row (src/storage_inserter.rs lines
293-295): zip the generators with the row and return the first validation
error.  Like the Rust zip, it stops at the shorter list. -/
def validateRow : List ChunkGen → List ColumnValue → Except StorageError Unit
  | g :: gs, v :: vs =>
    match g.validate_value v with
    | Except.error e => Except.error e
    | Except.ok _ => validateRow gs vs
  | _, _ => Except.ok ()

/-- StorageInserter::flush (src/storage_inserter.rs lines 306-337).  Nothing
happens when no rows are buffered.  Otherwise the enqueued rows are streamed
into the generators column by column, the encoded chunks are collected and
append_stripe is called; only on success are the generators reset and the row
buffer cleared.  The pair carries the updated inserter so that the state on
error is explicit: the generators have already consumed the rows, and the
rows stay buffered. -/
def StorageInserter.flush (ins : StorageInserter) (io_fails : Bool) :
    Except StorageError Unit × StorageInserter :=
  if ins.enqueued_rows.length = 0 then (Except.ok (), ins)
  else
    let gens := appendToGenerators ins.chunk_generators ins.enqueued_rows 0
    let encoded_stripe := gens.map ChunkGen.get_encoded_chunk
    match StorageInserter.append_stripe io_fails ins.storage
        ins.enqueued_rows.length encoded_stripe with
    | Except.error e => (Except.error e, { ins with chunk_generators := gens })
    | Except.ok st =>
      (Except.ok (), { ins with storage := st,
                                chunk_generators := gens.map ChunkGen.reset,
                                enqueued_rows := [] })

/-- StorageInserter::enqueue_row (src/storage_inserter.rs lines 284-304):
check the arity against the storage's column count, validate every value
against its column's generator, and only then buffer a copy of the row;
when the buffer reaches max_rows_in_stripe, flush. -/
def StorageInserter.enqueue_row (ins : StorageInserter) (io_fails : Bool)
    (row : List ColumnValue) : Except StorageError Unit × StorageInserter :=
  let expected := ins.storage.num_columns
  let got := row.length
  if got ≠ expected then
    (Except.error (StorageError.invalidNumberOfColumns got expected), ins)
  else
    match validateRow ins.chunk_generators row with
    | Except.error e => (Except.error e, ins)
    | Except.ok _ =>
      let ins1 := { ins with enqueued_rows := ins.enqueued_rows ++ [row] }
      if ins1.enqueued_rows.length = ins1.max_rows_in_stripe then ins1.flush io_fails
      else (Except.ok (), ins1)

/-- A sequence of enqueue_row calls on one inserter (the scenario quantified
over by the spec), stopping at the first error. -/
def StorageInserter.enqueueAll (ins : StorageInserter) :
    List (List ColumnValue) → Except StorageError Unit × StorageInserter
  | [] => (Except.ok (), ins)
  | r :: rs =>
    match ins.enqueue_row false r with
    | (Except.ok _, ins1) => ins1.enqueueAll rs
    | (Except.error e, ins1) => (Except.error e, ins1)

/-- The 3-byte ASCII signature "SCS" (0x53 0x43 0x53). -/
def storageSignature : List Nat := [83, 67, 83]

/-- Modelled from the spec: Storage::write_footer, called at
src/storage_inserter.rs line 220 but absent from the storage.rs revision
under src.  Per the spec it seeks to the end and rewrites the signature, so
the backend afterwards ends with the three bytes "SCS". -/
def Storage.write_footer (s : Storage) : Storage :=
  { s with backend := s.backend ++ storageSignature }

/-- InsertionManager::finish_inserting (src/storage_inserter.rs lines
215-222).  It requires every inserter to have been dropped first, and
StorageInserter's Drop runs flush (src/storage_inserter.rs lines 402-407);
the model folds that final flush of the last inserter into the call, then
writes the footer and hands the storage back. -/
def InsertionManager.finish_inserting (ins : StorageInserter) :
    Except StorageError Storage :=
  match ins.flush false with
  | (Except.error e, _) => Except.error e
  | (Except.ok _, insF) => Except.ok insF.storage.write_footer

/-- src/nulls_bitmap.rs NullsBitmap. -/
structure NullsBitmap where
  packed_bits : List Nat
  num_values : Nat
deriving DecidableEq, Repr

/-- NullsBitmap::new (src/nulls_bitmap.rs lines 7-12). -/
def NullsBitmap.new : NullsBitmap := { packed_bits := [], num_values := 0 }

/-- Apply f to the last element of a list.  Models the
get_unchecked_mut(len - 1) write of NullsBitmap::append; on the empty list
(unreachable: a byte is pushed first whenever the bitmap is byte-aligned) it
is the identity. -/
def modifyLast (f : Nat → Nat) : List Nat → List Nat
  | [] => []
  | [x] => [f x]
  | x :: y :: rest => x :: modifyLast f (y :: rest)

/-- NullsBitmap::append (src/nulls_bitmap.rs lines 27-41): when the bitmap is
byte-aligned a fresh zero byte is pushed; a present value then sets bit
(num_values % 8) of the last byte. -/
def NullsBitmap.append (b : NullsBitmap) (has_value : Bool) : NullsBitmap :=
  let bit_offset := b.num_values % 8
  let packed0 := if bit_offset = 0 then b.packed_bits ++ [0] else b.packed_bits
  let packed1 :=
    if has_value then modifyLast (fun byte => byte ||| (1 <<< bit_offset)) packed0
    else packed0
  { packed_bits := packed1, num_values := b.num_values + 1 }

/-- NullsBitmap::append_null (src/nulls_bitmap.rs lines 19-21). -/
def NullsBitmap.append_null (b : NullsBitmap) : NullsBitmap := b.append false

/-- NullsBitmap::append_not_null (src/nulls_bitmap.rs lines 23-25). -/
def NullsBitmap.append_not_null (b : NullsBitmap) : NullsBitmap := b.append true

/-- NullsBitmap::reset (src/nulls_bitmap.rs lines 14-17). -/
def NullsBitmap.reset (_ : NullsBitmap) : NullsBitmap :=
  { packed_bits := [], num_values := 0 }

/-- NullsBitmap::get_raw_bits (src/nulls_bitmap.rs lines 43-45). -/
def NullsBitmap.get_raw_bits (b : NullsBitmap) : List Nat := b.packed_bits

/-- NullsBitmap::len (src/nulls_bitmap.rs lines 47-49). -/
def NullsBitmap.len (b : NullsBitmap) : Nat := b.num_values

/-- Append a sequence of has-value flags in order. -/
def NullsBitmap.appendList (b : NullsBitmap) : List Bool → NullsBitmap
  | [] => b
  | v :: vs => (b.append v).appendList vs

/-! ## Theorems -/

theorem get?_isSome_iff {α : Type} (l : List α) (n : Nat) :
    (l.get? n).isSome ↔ n < l.length := by
  constructor
  · intro h
    rcases Option.isSome_iff_exists.mp h with ⟨a, ha⟩
    exact (List.get?_eq_some.mp ha).1
  · intro h
    exact Option.isSome_iff_exists.mpr ⟨_, List.get?_eq_get h⟩

/-- C10: Storage::column is a partial accessor: it yields a column exactly
when the index is below num_columns (it panics, modelled as none, for any
larger index), while column_by_name is total: it returns none precisely when
no column bears the name, and any column it returns is a column of the
storage with that name. -/
theorem column_partial_column_by_name_total (s : Storage) (idx : Nat) (name : String) :
    ((s.column idx).isSome ↔ idx < s.num_columns) ∧
    (s.column_by_name name = none ↔ ∀ c ∈ s.columns, c.name ≠ name) ∧
    (∀ c, s.column_by_name name = some c → c ∈ s.columns ∧ c.name = name) := by
  refine ⟨get?_isSome_iff s.columns idx, ?_, ?_⟩
  · rw [Storage.column_by_name, List.find?_eq_none]
    constructor
    · intro h c hc hn
      exact h c hc (by simp [hn])
    · intro h c hc
      simp only [beq_iff_eq]
      exact h c hc
  · intro c hc
    exact ⟨List.mem_of_find?_eq_some hc, by simpa using List.find?_some hc⟩

/-- C1 (code bug): evaluating Storage creation at the failing input
StorageBuilder::new().column("id", Int32).in_memory().  The Storage::init
under src performs no backend write, so immediately after creation the
backend is empty and its first 3 bytes are not the signature "SCS", although
the spec requires the signature to be written at creation (write_footer,
which storage_inserter.rs calls but src's storage.rs lacks, is documented as
re-writing it).  With write_footer modelled from the spec, the second half of
the claim does hold: after finish_inserting the backend ends with "SCS". -/
theorem created_backend_lacks_signature :
    StorageBuilder.in_memory [⟨"id", ColumnDatatype.int32⟩] =
      Except.ok ⟨0, [⟨"id", ColumnDatatype.int32, ⟨true, true, some 4⟩, 0⟩], [], []⟩ ∧
    (∀ st : Storage,
      StorageBuilder.in_memory [⟨"id", ColumnDatatype.int32⟩] = Except.ok st →
        st.backend.take 3 ≠ storageSignature) ∧
    InsertionManager.finish_inserting (StorageInserter.new
        ⟨0, [⟨"id", ColumnDatatype.int32, ⟨true, true, some 4⟩, 0⟩], [], []⟩) =
      Except.ok ⟨0, [⟨"id", ColumnDatatype.int32, ⟨true, true, some 4⟩, 0⟩],
        storageSignature, []⟩ := by
  refine ⟨by rfl, ?_, by rfl⟩
  intro st hst h3
  have hst2 : st =
      ⟨0, [⟨"id", ColumnDatatype.int32, ⟨true, true, some 4⟩, 0⟩], [], []⟩ := by
    have h4 := hst.symm.trans (by rfl :
      StorageBuilder.in_memory [⟨"id", ColumnDatatype.int32⟩] =
        Except.ok ⟨0, [⟨"id", ColumnDatatype.int32, ⟨true, true, some 4⟩, 0⟩], [], []⟩)
    cases h4
    rfl
  rw [hst2] at h3
  exact absurd h3 (by decide)

theorem modifyLast_length (f : Nat → Nat) (l : List Nat) :
    (modifyLast f l).length = l.length := by
  induction l with
  | nil => rfl
  | cons x xs ih =>
    cases xs with
    | nil => rfl
    | cons y ys => simpa [modifyLast] using ih

theorem modifyLast_append_singleton (f : Nat → Nat) (l : List Nat) (x : Nat) :
    modifyLast f (l ++ [x]) = l ++ [f x] := by
  induction l with
  | nil => rfl
  | cons a as ih =>
    cases as with
    | nil => rfl
    | cons b bs => simpa [modifyLast] using ih

theorem modifyLast_getD_of_lt (f : Nat → Nat) (l : List Nat) (i : Nat)
    (h : i + 1 < l.length) : (modifyLast f l).getD i 0 = l.getD i 0 := by
  induction l generalizing i with
  | nil => rfl
  | cons x xs ih =>
    cases xs with
    | nil => simp at h
    | cons y ys =>
      cases i with
      | zero => rfl
      | succ j =>
        have hj : j + 1 < (y :: ys).length := by simpa using h
        simpa [modifyLast] using ih j hj

theorem modifyLast_getD_last (f : Nat → Nat) (l : List Nat) (h : l ≠ []) :
    (modifyLast f l).getD (l.length - 1) 0 = f (l.getD (l.length - 1) 0) := by
  induction l with
  | nil => exact absurd rfl h
  | cons x xs ih =>
    cases xs with
    | nil => rfl
    | cons y ys =>
      have hne : (y :: ys) ≠ [] := by simp
      have := ih hne
      simpa [modifyLast, List.length_cons] using this

/-- The bitmap state that results from appending exactly the flags bs, bit i
of byte i/8 recording flag i and all further bits clear. -/
def BitmapRepr (b : NullsBitmap) (bs : List Bool) : Prop :=
  b.num_values = bs.length ∧
  b.packed_bits.length = (bs.length + 7) / 8 ∧
  ∀ i, Nat.testBit (b.packed_bits.getD (i / 8) 0) (i % 8) = bs.getD i false

theorem bitmapRepr_new : BitmapRepr NullsBitmap.new [] := by
  refine ⟨rfl, rfl, fun i => ?_⟩
  simp [NullsBitmap.new, Nat.zero_testBit]

theorem bitmapRepr_append {b : NullsBitmap} {bs : List Bool}
    (h : BitmapRepr b bs) (v : Bool) : BitmapRepr (b.append v) (bs ++ [v]) := by
  obtain ⟨hn, hl, hbit⟩ := h
  have hdm : 8 * (bs.length / 8) + bs.length % 8 = bs.length :=
    Nat.div_add_mod bs.length 8
  by_cases h0 : bs.length % 8 = 0
  · -- byte-aligned: a fresh byte is pushed, and bit 0 of it records v
    have hpacked : (b.append v).packed_bits =
        b.packed_bits ++ [if v then 1 else 0] := by
      cases v with
      | false => simp [NullsBitmap.append, hn, h0]
      | true =>
        simp only [NullsBitmap.append, hn, h0, if_pos rfl, if_true]
        rw [modifyLast_append_singleton]
        norm_num
    refine ⟨by simp [NullsBitmap.append, hn], ?_, ?_⟩
    · rw [hpacked]
      simp only [List.length_append, List.length_singleton, hl]
      omega
    · intro i
      rw [hpacked]
      rcases Nat.lt_trichotomy (i / 8) b.packed_bits.length with hi | hi | hi
      · have hilt : i < bs.length := by
          by_contra hge
          have : bs.length / 8 ≤ i / 8 := Nat.div_le_div_right (by omega)
          omega
        rw [List.getD_append _ _ _ _ hi, hbit i,
          List.getD_append _ _ _ _ hilt]
      · have hrange : 8 * (i / 8) + i % 8 = i := Nat.div_add_mod i 8
        rw [List.getD_append_right _ _ _ _ (le_of_eq hi.symm), hi, Nat.sub_self]
        have hlen8 : b.packed_bits.length = bs.length / 8 := by omega
        by_cases hieq : i = bs.length
        · have hmod : i % 8 = 0 := by omega
          subst hieq
          rw [hmod]
          cases v with
          | false => simp
          | true => simp
        · have hgt : bs.length < i := by
            rcases Nat.lt_or_ge i bs.length with hc | hc
            · exfalso
              have : i / 8 < bs.length / 8 := by omega
              omega
            · omega
          have hmod : i % 8 ≠ 0 := by omega
          have hrhs : (bs ++ [v]).getD i false = false := by
            apply List.getD_eq_default
            simp only [List.length_append, List.length_singleton]
            omega
          rw [hrhs]
          have hgd : ([if v then 1 else 0] : List Nat).getD 0 0
              = if v then 1 else 0 := rfl
          rw [hgd]
          cases v with
          | false => exact Nat.zero_testBit (i % 8)
          | true =>
            have h1 : (if true then (1 : Nat) else 0) = 2 ^ 0 := rfl
            rw [h1]
            exact Nat.testBit_two_pow_of_ne (by omega)
      · have hrhs : (bs ++ [v]).getD i false = false := by
          apply List.getD_eq_default
          simp only [List.length_append, List.length_singleton]
          have : bs.length / 8 + 1 ≤ i / 8 := by omega
          have : 8 * (bs.length / 8 + 1) ≤ 8 * (i / 8) := by omega
          have h8 : 8 * (i / 8) + i % 8 = i := Nat.div_add_mod i 8
          omega
        rw [hrhs]
        have hd : (b.packed_bits ++ [if v then 1 else 0]).getD (i / 8) 0 = 0 := by
          apply List.getD_eq_default
          simp only [List.length_append, List.length_singleton]
          omega
        rw [hd]
        exact Nat.zero_testBit _
  · -- not byte-aligned: no byte is pushed; a present value sets bit
    -- (len % 8) of the last byte
    have hlen : b.packed_bits.length = bs.length / 8 + 1 := by omega
    have hlen2 : ((bs ++ [v]).length + 7) / 8 = (bs.length + 7) / 8 := by
      simp only [List.length_append, List.length_singleton]
      omega
    have hpacked0 : (if bs.length % 8 = 0 then b.packed_bits ++ [0]
        else b.packed_bits) = b.packed_bits := by simp [h0]
    cases v with
    | false =>
      refine ⟨by simp [NullsBitmap.append, hn], ?_, ?_⟩
      · simpa [NullsBitmap.append, hn, h0] using by omega
      · intro i
        have hpk : (b.append false).packed_bits = b.packed_bits := by
          simp [NullsBitmap.append, hn, h0]
        rw [hpk, hbit i]
        rcases Nat.lt_trichotomy i bs.length with hc | hc | hc
        · rw [List.getD_append _ _ _ _ hc]
        · subst hc
          rw [List.getD_eq_default _ _ (le_refl _),
            List.getD_append_right _ _ _ _ (le_refl _)]
          simp
        · rw [List.getD_eq_default _ _ (by omega),
            List.getD_eq_default _ _ (by simp; omega)]
    | true =>
      have hpk : (b.append true).packed_bits =
          modifyLast (fun byte => byte ||| (1 <<< (bs.length % 8))) b.packed_bits := by
        simp [NullsBitmap.append, hn, h0]
      refine ⟨by simp [NullsBitmap.append, hn], ?_, ?_⟩
      · rw [hpk, modifyLast_length, hl, hlen2]
      · intro i
        rw [hpk]
        rcases Nat.lt_trichotomy (i / 8) (b.packed_bits.length - 1) with hi | hi | hi
        · have hilt : i < bs.length := by
            have h8 : 8 * (i / 8) + i % 8 = i := Nat.div_add_mod i 8
            omega
          rw [modifyLast_getD_of_lt _ _ _ (by omega), hbit i,
            List.getD_append _ _ _ _ hilt]
        · have hne : b.packed_bits ≠ [] := by
            intro hc
            rw [hc] at hlen
            simp at hlen
          have h8 : 8 * (i / 8) + i % 8 = i := Nat.div_add_mod i 8
          rw [hi, modifyLast_getD_last _ _ hne, ← hi, Nat.testBit_lor]
          have hshift : (1 <<< (bs.length % 8)) = 2 ^ (bs.length % 8) := by
            simp [Nat.shiftLeft_eq]
          rw [hshift, hbit i]
          by_cases hieq : i = bs.length
          · subst hieq
            rw [List.getD_eq_default bs false (le_refl _),
              Nat.testBit_two_pow_self,
              List.getD_append_right _ _ _ _ (le_refl _)]
            simp
          · have hmodne : bs.length % 8 ≠ i % 8 := by omega
            rw [Nat.testBit_two_pow_of_ne hmodne]
            simp only [Bool.or_false]
            rcases Nat.lt_trichotomy i bs.length with hc | hc | hc
            · rw [List.getD_append _ _ _ _ hc]
            · exact absurd hc hieq
            · rw [List.getD_eq_default bs false (by omega),
                List.getD_eq_default (bs ++ [true]) false
                  (by simp only [List.length_append, List.length_singleton]; omega)]
        · have hge : b.packed_bits.length ≤ i / 8 := by omega
          have h8 : 8 * (i / 8) + i % 8 = i := Nat.div_add_mod i 8
          rw [List.getD_eq_default _ _ (by rw [modifyLast_length]; omega),
            List.getD_eq_default (bs ++ [true]) false
              (by simp only [List.length_append, List.length_singleton]; omega)]
          exact Nat.zero_testBit _

theorem bitmapRepr_appendList {b : NullsBitmap} {bs : List Bool}
    (h : BitmapRepr b bs) (vs : List Bool) :
    BitmapRepr (b.appendList vs) (bs ++ vs) := by
  induction vs generalizing b bs with
  | nil => simpa [NullsBitmap.appendList] using h
  | cons v vs ih =>
    have h2 := bitmapRepr_append h v
    have h3 := ih h2
    simpa [NullsBitmap.appendList] using h3

/-- C5: appending flags b0..b(n-1) to a fresh NullsBitmap (true for a present
value, false for a null) gives len() = n, raw bits of length the ceiling of
n/8, and bit i%8 of byte i/8 set exactly when flag i is true; one fresh zero
byte is grown exactly by the appends performed at a byte-aligned length. -/
theorem nulls_bitmap_layout (bs : List Bool) :
    (NullsBitmap.new.appendList bs).len = bs.length ∧
    (NullsBitmap.new.appendList bs).get_raw_bits.length = (bs.length + 7) / 8 ∧
    (∀ i, i < bs.length →
      Nat.testBit ((NullsBitmap.new.appendList bs).get_raw_bits.getD (i / 8) 0) (i % 8)
        = bs.getD i false) ∧
    (∀ (b : NullsBitmap) (v : Bool),
      (b.append v).packed_bits.length =
        b.packed_bits.length + (if b.num_values % 8 = 0 then 1 else 0)) := by
  have h := bitmapRepr_appendList bitmapRepr_new bs
  simp only [List.nil_append] at h
  obtain ⟨h1, h2, h3⟩ := h
  refine ⟨h1, h2, fun i _ => h3 i, fun b v => ?_⟩
  by_cases h0 : b.num_values % 8 = 0
  · cases v with
    | false => simp [NullsBitmap.append, h0]
    | true => simp [NullsBitmap.append, h0, modifyLast_length]
  · cases v with
    | false => simp [NullsBitmap.append, h0]
    | true => simp [NullsBitmap.append, h0, modifyLast_length]

theorem numeric_append_values (kind : NumKind) (buf : List Int)
    (vs : List ColumnValue) :
    (ChunkGen.numeric kind buf).append_values vs
      = ChunkGen.numeric kind (buf ++ vs.map (numStore kind)) := by
  induction vs generalizing buf with
  | nil => simp [ChunkGen.append_values]
  | cons v vs ih => simp [ChunkGen.append_values, ih]

/-- The bytes FixedLengthChunkGenerator::append_values copies for one value:
the payload of a present value, nothing for Null. -/
def fixedPayload : ColumnValue → List Nat
  | ColumnValue.fixedLength v => v
  | _ => []

theorem fixed_append_values (w : Nat) (nulls : List Bool) (vals : List Nat)
    (vs : List ColumnValue)
    (hv : ∀ v ∈ vs, (ChunkGen.fixedLength w [] []).validate_value v = Except.ok ()) :
    (ChunkGen.fixedLength w nulls vals).append_values vs
      = ChunkGen.fixedLength w (nulls ++ vs.map ColumnValue.isNull)
          (vals ++ (vs.map fixedPayload).flatten) := by
  induction vs generalizing nulls vals with
  | nil => simp [ChunkGen.append_values]
  | cons v vs ih =>
    have hv0 := hv v (List.mem_cons_self v vs)
    have hvs : ∀ u ∈ vs, (ChunkGen.fixedLength w [] []).validate_value u
        = Except.ok () := fun u hu => hv u (List.mem_cons_of_mem v hu)
    cases v with
    | null =>
      simp [ChunkGen.append_values, ih _ _ hvs, fixedPayload, ColumnValue.isNull]
    | fixedLength bytes =>
      simp [ChunkGen.append_values, ih _ _ hvs, fixedPayload, ColumnValue.isNull]
    | byte x => simp [ChunkGen.validate_value] at hv0
    | int32 x => simp [ChunkGen.validate_value] at hv0
    | int64 x => simp [ChunkGen.validate_value] at hv0
    | float x => simp [ChunkGen.validate_value] at hv0
    | variableLength x => simp [ChunkGen.validate_value] at hv0

/-- The i32 size entry VariableLengthChunkGenerator::append_values pushes for
one value: -1 for Null, the payload length for a present value.  Other
variants are unreachable under validation. -/
def varSizeEntry : ColumnValue → Int
  | ColumnValue.null => -1
  | ColumnValue.variableLength v => lenAsI32 v.length
  | _ => 0

/-- The payload bytes VariableLengthChunkGenerator::append_values copies for
one value. -/
def varPayload : ColumnValue → List Nat
  | ColumnValue.variableLength v => v
  | _ => []

theorem var_append_values (sizes : List Int) (vals : List Nat)
    (vs : List ColumnValue)
    (hv : ∀ v ∈ vs, (ChunkGen.variableLength [] []).validate_value v = Except.ok ()) :
    (ChunkGen.variableLength sizes vals).append_values vs
      = ChunkGen.variableLength (sizes ++ vs.map varSizeEntry)
          (vals ++ (vs.map varPayload).flatten) := by
  induction vs generalizing sizes vals with
  | nil => simp [ChunkGen.append_values]
  | cons v vs ih =>
    have hv0 := hv v (List.mem_cons_self v vs)
    have hvs : ∀ u ∈ vs, (ChunkGen.variableLength [] []).validate_value u
        = Except.ok () := fun u hu => hv u (List.mem_cons_of_mem v hu)
    cases v with
    | null =>
      simp [ChunkGen.append_values, ih _ _ hvs, varPayload, varSizeEntry]
    | variableLength bytes =>
      simp [ChunkGen.append_values, ih _ _ hvs, varPayload, varSizeEntry]
    | byte x => simp [ChunkGen.validate_value] at hv0
    | int32 x => simp [ChunkGen.validate_value] at hv0
    | int64 x => simp [ChunkGen.validate_value] at hv0
    | float x => simp [ChunkGen.validate_value] at hv0
    | fixedLength x => simp [ChunkGen.validate_value] at hv0

theorem flatten_map_toLeBytes_length (kind : NumKind) (l : List Int) :
    ((l.map kind.toLeBytes).flatten).length = kind.width * l.length := by
  induction l with
  | nil => simp
  | cons x xs ih =>
    simp only [List.map_cons, List.flatten_cons, List.length_append, ih,
      NumKind.toLeBytes, leBytes_length, List.length_cons]
    ring

theorem fixed_payload_flatten_length (w : Nat) (vs : List ColumnValue)
    (hv : ∀ v ∈ vs, (ChunkGen.fixedLength w [] []).validate_value v = Except.ok ()) :
    ((vs.map fixedPayload).flatten).length
      = w * (vs.filter (fun v => !v.isNull)).length := by
  induction vs with
  | nil => simp
  | cons v vs ih =>
    have hv0 := hv v (List.mem_cons_self v vs)
    have hvs : ∀ u ∈ vs, (ChunkGen.fixedLength w [] []).validate_value u
        = Except.ok () := fun u hu => hv u (List.mem_cons_of_mem v hu)
    cases v with
    | null => simpa [fixedPayload, ColumnValue.isNull] using ih hvs
    | fixedLength bytes =>
      have hw : bytes.length = w := by
        by_cases hc : bytes.length = w
        · exact hc
        · simp [ChunkGen.validate_value, hc] at hv0
      simp only [List.map_cons, List.flatten_cons, List.length_append,
        fixedPayload, ih hvs, hw, List.filter_cons]
      simp only [ColumnValue.isNull, Bool.not_true, Bool.not_false,
        if_true, List.length_cons]
      ring
    | byte x => simp [ChunkGen.validate_value] at hv0
    | int32 x => simp [ChunkGen.validate_value] at hv0
    | int64 x => simp [ChunkGen.validate_value] at hv0
    | float x => simp [ChunkGen.validate_value] at hv0
    | variableLength x => simp [ChunkGen.validate_value] at hv0

theorem sizes_bytes_length (sizes : List Int) :
    ((sizes.map (fun s => leBytes 4 ((s % (2 ^ 32)).toNat))).flatten).length
      = 4 * sizes.length := by
  induction sizes with
  | nil => simp
  | cons x xs ih =>
    simp only [List.map_cons, List.flatten_cons, List.length_append,
      leBytes_length, ih, List.length_cons]
    ring

/-- C4: for every chunk generator and every input sequence that passes
validation value by value, appending the sequence and encoding yields a byte
slice of exactly the deterministic size: sizeof(N) * count for a numeric
chunk (nulls included in the count), count + W * present_count for a
fixed-length chunk of width W, and 4 * count plus the total payload size for
a variable-length chunk. -/
theorem encoded_chunk_sizes :
    (∀ (kind : NumKind) (vs : List ColumnValue),
      (∀ v ∈ vs, (ChunkGen.numeric kind []).validate_value v = Except.ok ()) →
      ((ChunkGen.numeric kind []).append_values vs).get_encoded_chunk.2.length
        = kind.width * vs.length) ∧
    (∀ (w : Nat) (vs : List ColumnValue),
      (∀ v ∈ vs, (ChunkGen.fixedLength w [] []).validate_value v = Except.ok ()) →
      ((ChunkGen.fixedLength w [] []).append_values vs).get_encoded_chunk.2.length
        = vs.length + w * (vs.filter (fun v => !v.isNull)).length) ∧
    (∀ (vs : List ColumnValue),
      (∀ v ∈ vs, (ChunkGen.variableLength [] []).validate_value v = Except.ok ()) →
      ((ChunkGen.variableLength [] []).append_values vs).get_encoded_chunk.2.length
        = 4 * vs.length + (vs.map (fun v => (varPayload v).length)).sum) := by
  refine ⟨?_, ?_, ?_⟩
  · intro kind vs _
    rw [numeric_append_values]
    simp only [List.nil_append, ChunkGen.get_encoded_chunk,
      flatten_map_toLeBytes_length, List.length_map]
  · intro w vs hv
    rw [fixed_append_values w [] [] vs hv]
    simp only [List.nil_append, ChunkGen.get_encoded_chunk, List.length_append,
      List.length_map, fixed_payload_flatten_length w vs hv]
  · intro vs hv
    rw [var_append_values [] [] vs hv]
    simp only [List.nil_append, ChunkGen.get_encoded_chunk, List.length_append,
      sizes_bytes_length, List.length_map]
    have hflat : ∀ us : List ColumnValue,
        ((us.map varPayload).flatten).length
          = (us.map (fun v => (varPayload v).length)).sum := by
      intro us
      induction us with
      | nil => simp
      | cons u us ih => simp [ih]
    rw [hflat]

theorem numStore_null (kind : NumKind) :
    numStore kind ColumnValue.null = kind.null_value := rfl

theorem numStore_of_extract (kind : NumKind) (v : ColumnValue) (x : Int)
    (hx : kind.extract_value_exact v = some x) : numStore kind v = x := by
  cases v <;> cases kind <;>
    simp_all [numStore, NumKind.extract_value_or_null, NumKind.extract_value_exact]

/-- C8: NumericChunkGenerator stores exactly one element per input value,
keeping extracted values and replacing each Null in-band by the type's
sentinel (i8::MIN, i32::MIN, i64::MIN, f32::NEG_INFINITY as a bit pattern);
the encoded chunk is exactly the elementwise raw little-endian byte image of
that buffer, of size width * count, with no separate null bitmap. -/
theorem numeric_chunk_null_sentinel (kind : NumKind) (vs : List ColumnValue)
    (hval : ∀ v ∈ vs, (ChunkGen.numeric kind []).validate_value v = Except.ok ()) :
    (ChunkGen.numeric kind []).append_values vs
      = ChunkGen.numeric kind (vs.map (numStore kind)) ∧
    (vs.map (numStore kind)).length = vs.length ∧
    (∀ i, vs.get? i = some ColumnValue.null →
      (vs.map (numStore kind)).get? i = some kind.null_value) ∧
    (∀ i v x, vs.get? i = some v → kind.extract_value_exact v = some x →
      (vs.map (numStore kind)).get? i = some x) ∧
    ((ChunkGen.numeric kind (vs.map (numStore kind))).get_encoded_chunk
      = (Encoding.raw, ((vs.map (numStore kind)).map kind.toLeBytes).flatten)) ∧
    ((vs.map (numStore kind)).map kind.toLeBytes).flatten.length
      = kind.width * vs.length ∧
    (NumKind.byte.null_value = -128 ∧ NumKind.int32.null_value = -2147483648 ∧
      NumKind.int64.null_value = -9223372036854775808 ∧
      NumKind.float.null_value = 0xFF800000) := by
  refine ⟨?_, by simp, ?_, ?_, rfl, ?_, by decide⟩
  · simpa using numeric_append_values kind [] vs
  · intro i hi
    rw [List.get?_map, hi]
    simp [numStore_null]
  · intro i v x hi hx
    rw [List.get?_map, hi]
    simp [numStore_of_extract kind v x hx]
  · rw [flatten_map_toLeBytes_length, List.length_map]

/-- C8 witness: a concrete Int32 sequence with a Null. -/
theorem numeric_chunk_null_sentinel_witness :
    (∀ v ∈ [ColumnValue.null, ColumnValue.int32 5],
      (ChunkGen.numeric NumKind.int32 []).validate_value v = Except.ok ()) ∧
    ((ChunkGen.numeric NumKind.int32 []).append_values
        [ColumnValue.null, ColumnValue.int32 5]
      = ChunkGen.numeric NumKind.int32
          ([ColumnValue.null, ColumnValue.int32 5].map (numStore NumKind.int32)) ∧
    ([ColumnValue.null, ColumnValue.int32 5].map (numStore NumKind.int32)).length
      = [ColumnValue.null, ColumnValue.int32 5].length ∧
    (∀ i, [ColumnValue.null, ColumnValue.int32 5].get? i = some ColumnValue.null →
      ([ColumnValue.null, ColumnValue.int32 5].map (numStore NumKind.int32)).get? i
        = some NumKind.int32.null_value) ∧
    (∀ i v x, [ColumnValue.null, ColumnValue.int32 5].get? i = some v →
      NumKind.int32.extract_value_exact v = some x →
      ([ColumnValue.null, ColumnValue.int32 5].map (numStore NumKind.int32)).get? i
        = some x) ∧
    ((ChunkGen.numeric NumKind.int32
        ([ColumnValue.null, ColumnValue.int32 5].map (numStore NumKind.int32))).get_encoded_chunk
      = (Encoding.raw,
         (([ColumnValue.null, ColumnValue.int32 5].map
            (numStore NumKind.int32)).map NumKind.int32.toLeBytes).flatten)) ∧
    (([ColumnValue.null, ColumnValue.int32 5].map
        (numStore NumKind.int32)).map NumKind.int32.toLeBytes).flatten.length
      = NumKind.int32.width * [ColumnValue.null, ColumnValue.int32 5].length ∧
    (NumKind.byte.null_value = -128 ∧ NumKind.int32.null_value = -2147483648 ∧
      NumKind.int64.null_value = -9223372036854775808 ∧
      NumKind.float.null_value = 0xFF800000)) :=
  ⟨by decide, numeric_chunk_null_sentinel NumKind.int32
    [ColumnValue.null, ColumnValue.int32 5] (by decide)⟩

theorem foldl_add_acc (l : List Nat) : ∀ a : Nat, l.foldl (· + ·) a = a + l.sum := by
  induction l with
  | nil => intro a; simp
  | cons x xs ih =>
    intro a
    simp only [List.foldl_cons, ih, List.sum_cons]
    omega

theorem compressChunks_zip (stripe : List (Encoding × List Nat)) :
    (compressChunks stripe).zip stripe
      = stripe.map (fun ec => ((Compression.none, ec.1, ec.2), ec)) := by
  induction stripe with
  | nil => rfl
  | cons e es ih =>
    have h2 : (compressChunks (e :: es)).zip (e :: es)
        = ((Compression.none, e.1, e.2), e) :: (compressChunks es).zip es := rfl
    rw [h2, ih]
    rfl

theorem buildColumnChunks_length
    (l : List ((Compression × Encoding × List Nat) × (Encoding × List Nat))) :
    ∀ rel : Nat, (buildColumnChunks rel l).length = l.length := by
  induction l with
  | nil => intro rel; rfl
  | cons p ps ih => intro rel; simp [buildColumnChunks, ih]

theorem buildColumnChunks_relative_offset
    (l : List ((Compression × Encoding × List Nat) × (Encoding × List Nat))) :
    ∀ (rel i : Nat), i < l.length →
      ((buildColumnChunks rel l).get? i).map ColumnChunkHeader.relative_offset
        = some (rel + ((l.take i).map (fun p => p.1.2.2.length)).sum) := by
  induction l with
  | nil => intro rel i h; simp at h
  | cons p ps ih =>
    intro rel i h
    cases i with
    | zero => simp [buildColumnChunks]
    | succ j =>
      have hj : j < ps.length := by simpa using h
      have := ih (rel + p.1.2.2.length) j hj
      simp only [buildColumnChunks, List.get?_cons_succ, this, List.take_succ_cons,
        List.map_cons, List.sum_cons]
      congr 1
      omega

/-- C6: for a non-empty list of encoded chunks, the StripeHeader that
append_stripe writes records stripe_size equal to the sum of the compressed
chunk lengths (equal to the encoded lengths under Compression::None), and its
column chunks, in column order, carry relative offsets that are the running
sums of the preceding compressed sizes starting at 0; the header followed by
the chunk payloads is what lands on the backend. -/
theorem append_stripe_header_layout (st : Storage) (n : Nat)
    (stripe : List (Encoding × List Nat)) (hne : stripe ≠ []) :
    (stripeHeaderOf n stripe).stripe_size
      = (stripe.map (fun ec => ec.2.length)).sum ∧
    (stripeHeaderOf n stripe).column_chunks.length = stripe.length ∧
    (∀ i, i < stripe.length →
      ((stripeHeaderOf n stripe).column_chunks.get? i).map
          ColumnChunkHeader.relative_offset
        = some (((stripe.take i).map (fun ec => ec.2.length)).sum)) ∧
    StorageInserter.append_stripe false st n stripe
      = Except.ok (Storage.append_stripe
          { st with backend := st.backend ++
              serializeStripeHeader (stripeHeaderOf n stripe) ++
              (stripe.map (fun ec => ec.2)).flatten }
          { absolute_offset := st.backend.length, num_rows := n }) := by
  have hmaplen : (compressChunks stripe).map (fun cc => cc.2.2.length)
      = stripe.map (fun ec => ec.2.length) := by
    simp [compressChunks]
  have hziplen : ((compressChunks stripe).zip stripe).length = stripe.length := by
    rw [compressChunks_zip, List.length_map]
  refine ⟨?_, ?_, ?_, ?_⟩
  · rw [stripeHeaderOf]
    simp only [foldl_add_acc, Nat.zero_add, hmaplen]
  · rw [stripeHeaderOf]
    simp only [buildColumnChunks_length, hziplen]
  · intro i hi
    rw [stripeHeaderOf]
    simp only
    rw [buildColumnChunks_relative_offset _ 0 i (by rw [hziplen]; exact hi)]
    rw [compressChunks_zip, ← List.map_take, List.map_map]
    simp only [Nat.zero_add]
    rfl
  · have hlen : ¬ stripe.length = 0 := by
      simpa [List.length_eq_zero] using hne
    rw [StorageInserter.append_stripe, if_neg hlen]
    simp only [Bool.false_eq_true, if_false]
    have hpayload : (compressChunks stripe).map (fun cc => cc.2.2)
        = stripe.map (fun ec => ec.2) := by
      simp [compressChunks]
    rw [hpayload]

/-- C9 helper: with the backend failing, a non-empty stripe write reports the
I/O error before any state is recorded. -/
theorem append_stripe_io_error (st : Storage) (n : Nat)
    (stripe : List (Encoding × List Nat)) (hne : stripe ≠ []) :
    StorageInserter.append_stripe true st n stripe
      = Except.error StorageError.ioError := by
  have hlen : ¬ stripe.length = 0 := by
    simpa [List.length_eq_zero] using hne
  rw [StorageInserter.append_stripe, if_neg hlen]
  simp

theorem appendToGenerators_length (gens : List ChunkGen)
    (rows : List (List ColumnValue)) :
    ∀ i : Nat, (appendToGenerators gens rows i).length = gens.length := by
  induction gens with
  | nil => intro i; rfl
  | cons g gs ih => intro i; simp [appendToGenerators, ih]

/-- C6 witness: a concrete two-chunk stripe. -/
theorem append_stripe_header_layout_witness :
    ([(Encoding.raw, [1, 2]), (Encoding.raw, [3, 4, 5])] :
        List (Encoding × List Nat)) ≠ [] ∧
    (stripeHeaderOf 2 [(Encoding.raw, [1, 2]), (Encoding.raw, [3, 4, 5])]).stripe_size
      = (([(Encoding.raw, [1, 2]), (Encoding.raw, [3, 4, 5])] :
          List (Encoding × List Nat)).map (fun ec => ec.2.length)).sum :=
  ⟨by decide, (append_stripe_header_layout ⟨0, [], [], []⟩ 2 _ (by decide)).1⟩

/-- C9 (amended): flush over buffered rows against a failing backend
propagates the I/O error as IoError and leaves the enqueued rows and the
storage untouched, but the chunk generators have already consumed the
buffered rows by the time the write fails, so a retried flush would stream
the same rows into the generators a second time rather than write them
exactly once. -/
theorem flush_io_error_keeps_rows_mutates_generators (ins : StorageInserter)
    (hrows : ins.enqueued_rows ≠ []) (hgens : ins.chunk_generators ≠ []) :
    ins.flush true
      = (Except.error StorageError.ioError,
         { ins with chunk_generators :=
             appendToGenerators ins.chunk_generators ins.enqueued_rows 0 }) := by
  have hlen : ¬ ins.enqueued_rows.length = 0 := by
    simpa [List.length_eq_zero] using hrows
  have hgenlen : ((appendToGenerators ins.chunk_generators ins.enqueued_rows 0).map
      ChunkGen.get_encoded_chunk) ≠ [] := by
    intro hc
    apply hgens
    have hl := congrArg List.length hc
    simp only [List.length_map, appendToGenerators_length, List.length_nil] at hl
    exact List.length_eq_zero.mp hl
  simp only [StorageInserter.flush, if_neg hlen,
    append_stripe_io_error _ _ _ hgenlen]

/-- C9 witness: a concrete single-row, single-column inserter. -/
theorem flush_io_error_witness :
    (StorageInserter.mk ⟨0, [⟨"id", ColumnDatatype.int32, ⟨true, true, some 4⟩, 0⟩], [], []⟩
        [[ColumnValue.int32 7]] [ChunkGen.numeric NumKind.int32 []] 65536).enqueued_rows ≠ [] ∧
    (StorageInserter.mk ⟨0, [⟨"id", ColumnDatatype.int32, ⟨true, true, some 4⟩, 0⟩], [], []⟩
        [[ColumnValue.int32 7]] [ChunkGen.numeric NumKind.int32 []] 65536).flush true
      = (Except.error StorageError.ioError,
         StorageInserter.mk ⟨0, [⟨"id", ColumnDatatype.int32, ⟨true, true, some 4⟩, 0⟩], [], []⟩
           [[ColumnValue.int32 7]] [ChunkGen.numeric NumKind.int32 [7]] 65536) := by
  refine ⟨by decide, ?_⟩
  have h := flush_io_error_keeps_rows_mutates_generators
    (StorageInserter.mk ⟨0, [⟨"id", ColumnDatatype.int32, ⟨true, true, some 4⟩, 0⟩], [], []⟩
      [[ColumnValue.int32 7]] [ChunkGen.numeric NumKind.int32 []] 65536)
    (by decide) (by decide)
  rw [h]
  rfl

/-- C9 (counterexample to the claim as stated): after one successful
enqueue_row on a fresh single-Int32-column inserter, a flush that hits an
I/O error returns IoError but does not leave the generators' in-memory state
unchanged: the Int32 generator buffer went from empty to holding the row's
value, so the claim's "leaves the generators' in-memory state unchanged, so
that retrying the flush writes the same enqueued rows exactly once" is false
on the code. -/
theorem flush_io_error_changes_generator_state :
    ((((StorageInserter.new ⟨0, [⟨"id", ColumnDatatype.int32, ⟨true, true, some 4⟩, 0⟩],
        [], []⟩).enqueue_row false [ColumnValue.int32 7]).2).flush true).1
      = Except.error StorageError.ioError ∧
    ((((StorageInserter.new ⟨0, [⟨"id", ColumnDatatype.int32, ⟨true, true, some 4⟩, 0⟩],
        [], []⟩).enqueue_row false [ColumnValue.int32 7]).2).flush true).2.chunk_generators
      = [ChunkGen.numeric NumKind.int32 [7]] ∧
    (((StorageInserter.new ⟨0, [⟨"id", ColumnDatatype.int32, ⟨true, true, some 4⟩, 0⟩],
        [], []⟩).enqueue_row false [ColumnValue.int32 7]).2).chunk_generators
      = [ChunkGen.numeric NumKind.int32 []] ∧
    [ChunkGen.numeric NumKind.int32 [7]] ≠ [ChunkGen.numeric NumKind.int32 []] := by
  refine ⟨by rfl, by rfl, by rfl, by decide⟩

theorem validateRow_first_error :
    ∀ (gens : List ChunkGen) (row : List ColumnValue) (j : Nat) (e : StorageError)
      (g : ChunkGen) (v : ColumnValue),
      (∀ i, i < j → ∀ gi vi, gens.get? i = some gi → row.get? i = some vi →
        gi.validate_value vi = Except.ok ()) →
      gens.get? j = some g → row.get? j = some v →
      g.validate_value v = Except.error e →
      validateRow gens row = Except.error e := by
  intro gens
  induction gens with
  | nil => intro row j e g v _ hg; simp at hg
  | cons g0 gs ih =>
    intro row j e g v hok hg hv he
    cases row with
    | nil => simp at hv
    | cons v0 vs =>
      cases j with
      | zero =>
        simp only [List.get?_cons_zero, Option.some.injEq] at hg hv
        subst hg
        subst hv
        simp [validateRow, he]
      | succ j2 =>
        have h0 : g0.validate_value v0 = Except.ok () :=
          hok 0 (Nat.succ_pos j2) g0 v0 rfl rfl
        have hrest := ih vs j2 e g v
          (fun i hi gi vi hgi hvi =>
            hok (i + 1) (Nat.succ_lt_succ hi) gi vi (by simpa using hgi)
              (by simpa using hvi))
          (by simpa using hg) (by simpa using hv) he
        simp [validateRow, h0, hrest]

/-- C3: enqueue_row rejects a row of the wrong arity with
InvalidNumberOfColumns(got, expected); otherwise it reports the validation
error of the first (lowest-index) offending value, where the per-generator
validators yield TypeError on a variant mismatch and InvalidLength(got,
expected) for a wrong-width FixedLength value; in every failure case the
returned inserter is the untouched input state (no row buffered and no
generator state changed), so later successful inserts behave as if the
failing call had never happened. -/
theorem enqueue_row_first_error (io : Bool) (ins : StorageInserter)
    (row : List ColumnValue) :
    (row.length ≠ ins.storage.num_columns →
      ins.enqueue_row io row
        = (Except.error (StorageError.invalidNumberOfColumns row.length
            ins.storage.num_columns), ins)) ∧
    (∀ e, row.length = ins.storage.num_columns →
      validateRow ins.chunk_generators row = Except.error e →
      ins.enqueue_row io row = (Except.error e, ins)) ∧
    (∀ j e g v,
      (∀ i, i < j → ∀ gi vi, ins.chunk_generators.get? i = some gi →
        row.get? i = some vi → gi.validate_value vi = Except.ok ()) →
      ins.chunk_generators.get? j = some g → row.get? j = some v →
      g.validate_value v = Except.error e →
      validateRow ins.chunk_generators row = Except.error e) ∧
    (∀ (kind : NumKind) (buf : List Int) (v : ColumnValue),
      v ≠ ColumnValue.null → kind.extract_value_exact v = none →
      (ChunkGen.numeric kind buf).validate_value v
        = Except.error StorageError.typeError) ∧
    (∀ (w : Nat) (nulls : List Bool) (vals bytes : List Nat), bytes.length ≠ w →
      (ChunkGen.fixedLength w nulls vals).validate_value
          (ColumnValue.fixedLength bytes)
        = Except.error (StorageError.invalidLength bytes.length w)) ∧
    (∀ (w : Nat) (nulls : List Bool) (vals : List Nat) (v : ColumnValue),
      v ≠ ColumnValue.null → (∀ bytes, v ≠ ColumnValue.fixedLength bytes) →
      (ChunkGen.fixedLength w nulls vals).validate_value v
        = Except.error StorageError.typeError) ∧
    (∀ (sizes : List Int) (vals : List Nat) (v : ColumnValue),
      v ≠ ColumnValue.null → (∀ bytes, v ≠ ColumnValue.variableLength bytes) →
      (ChunkGen.variableLength sizes vals).validate_value v
        = Except.error StorageError.typeError) := by
  refine ⟨?_, ?_, ?_, ?_, ?_, ?_, ?_⟩
  · intro hne
    rw [StorageInserter.enqueue_row, if_pos hne]
  · intro e heq hval
    rw [StorageInserter.enqueue_row, if_neg (by omega), hval]
  · intro j e g v hok hg hv he
    exact validateRow_first_error ins.chunk_generators row j e g v hok hg hv he
  · intro kind buf v hnull hex
    cases v with
    | null => exact absurd rfl hnull
    | byte x =>
      simp [ChunkGen.validate_value, NumKind.extract_value_or_null, hex]
    | int32 x =>
      simp [ChunkGen.validate_value, NumKind.extract_value_or_null, hex]
    | int64 x =>
      simp [ChunkGen.validate_value, NumKind.extract_value_or_null, hex]
    | float x =>
      simp [ChunkGen.validate_value, NumKind.extract_value_or_null, hex]
    | fixedLength x =>
      simp [ChunkGen.validate_value, NumKind.extract_value_or_null, hex]
    | variableLength x =>
      simp [ChunkGen.validate_value, NumKind.extract_value_or_null, hex]
  · intro w nulls vals bytes hne
    simp [ChunkGen.validate_value, hne]
  · intro w nulls vals v hnull hnfix
    cases v with
    | null => exact absurd rfl hnull
    | fixedLength bytes => exact absurd rfl (hnfix bytes)
    | byte x => rfl
    | int32 x => rfl
    | int64 x => rfl
    | float x => rfl
    | variableLength x => rfl
  · intro sizes vals v hnull hnvar
    cases v with
    | null => exact absurd rfl hnull
    | variableLength bytes => exact absurd rfl (hnvar bytes)
    | byte x => rfl
    | int32 x => rfl
    | int64 x => rfl
    | float x => rfl
    | fixedLength x => rfl

/-- C3 witness: on a (Byte, FixedLength 2) schema, a 1-cell row fails with
the arity error and a row whose first cell mismatches in type and whose
second cell has the wrong width reports the column-0 TypeError; both leave
the inserter untouched. -/
theorem enqueue_row_first_error_witness :
    ([ColumnValue.int32 1] : List ColumnValue).length
      ≠ (StorageInserter.mk
          ⟨0, [⟨"b", ColumnDatatype.byte, ⟨true, true, some 1⟩, 0⟩,
               ⟨"f", ColumnDatatype.fixedLength 2, ⟨false, true, some 2⟩, 1⟩], [], []⟩
          [] [ChunkGen.numeric NumKind.byte [], ChunkGen.fixedLength 2 [] []]
          262144).storage.num_columns ∧
    (StorageInserter.mk
        ⟨0, [⟨"b", ColumnDatatype.byte, ⟨true, true, some 1⟩, 0⟩,
             ⟨"f", ColumnDatatype.fixedLength 2, ⟨false, true, some 2⟩, 1⟩], [], []⟩
        [] [ChunkGen.numeric NumKind.byte [], ChunkGen.fixedLength 2 [] []]
        262144).enqueue_row false [ColumnValue.int32 1]
      = (Except.error (StorageError.invalidNumberOfColumns 1 2),
         StorageInserter.mk
          ⟨0, [⟨"b", ColumnDatatype.byte, ⟨true, true, some 1⟩, 0⟩,
               ⟨"f", ColumnDatatype.fixedLength 2, ⟨false, true, some 2⟩, 1⟩], [], []⟩
          [] [ChunkGen.numeric NumKind.byte [], ChunkGen.fixedLength 2 [] []]
          262144) ∧
    (StorageInserter.mk
        ⟨0, [⟨"b", ColumnDatatype.byte, ⟨true, true, some 1⟩, 0⟩,
             ⟨"f", ColumnDatatype.fixedLength 2, ⟨false, true, some 2⟩, 1⟩], [], []⟩
        [] [ChunkGen.numeric NumKind.byte [], ChunkGen.fixedLength 2 [] []]
        262144).enqueue_row false [ColumnValue.int32 1, ColumnValue.fixedLength [9]]
      = (Except.error StorageError.typeError,
         StorageInserter.mk
          ⟨0, [⟨"b", ColumnDatatype.byte, ⟨true, true, some 1⟩, 0⟩,
               ⟨"f", ColumnDatatype.fixedLength 2, ⟨false, true, some 2⟩, 1⟩], [], []⟩
          [] [ChunkGen.numeric NumKind.byte [], ChunkGen.fixedLength 2 [] []]
          262144) := by
  refine ⟨by decide, ?_, ?_⟩
  · exact (enqueue_row_first_error false _ [ColumnValue.int32 1]).1 (by decide)
  · exact (enqueue_row_first_error false _
      [ColumnValue.int32 1, ColumnValue.fixedLength [9]]).2.1
      StorageError.typeError (by decide) (by decide)

theorem init_fields (backend : List Nat) (builder : List ColumnBuilder)
    (st : Storage) (h : Storage.init backend builder = Except.ok st) :
    st = { num_rows := 0, columns := mkColumns builder 0,
           backend := backend, stripes := [] } := by
  unfold Storage.init at h
  cases hd : firstDuplicate builder [] with
  | some name => rw [hd] at h; simp at h
  | none =>
    rw [hd] at h
    cases h
    rfl

theorem append_stripe_ok_cases (s : Storage) (n : Nat)
    (stripe : List (Encoding × List Nat)) (s2 : Storage)
    (h : StorageInserter.append_stripe false s n stripe = Except.ok s2) :
    (stripe.length = 0 ∧ s2 = s) ∨
    (stripe.length ≠ 0 ∧
      s2.stripes = s.stripes ++ [⟨s.backend.length, n⟩] ∧
      s2.num_rows = s.num_rows + n ∧
      s2.columns = s.columns) := by
  by_cases hz : stripe.length = 0
  · left
    refine ⟨hz, ?_⟩
    rw [StorageInserter.append_stripe, if_pos hz] at h
    cases h
    rfl
  · right
    rw [StorageInserter.append_stripe, if_neg hz] at h
    simp only [Bool.false_eq_true, if_false] at h
    cases h
    exact ⟨hz, rfl, rfl, rfl⟩

/-- The storages reachable through the write path under src: a fresh Storage
built by Storage::init, then any number of successful append_stripe calls. -/
inductive ReachableStorage : Storage → Prop
  | init (backend : List Nat) (builder : List ColumnBuilder) (st : Storage) :
      Storage.init backend builder = Except.ok st → ReachableStorage st
  | append (st : Storage) (n : Nat) (stripe : List (Encoding × List Nat))
      (st2 : Storage) : ReachableStorage st →
      StorageInserter.append_stripe false st n stripe = Except.ok st2 →
      ReachableStorage st2

/-- C7: num_rows equals the sum of the stripe directory's per-stripe row
counts in every reachable Storage state: it holds (as 0 = 0) right after
init and is preserved by each successful append_stripe, which appends
exactly one directory entry, at the stripe header's absolute offset and with
the stripe's row count, and adds that row count to num_rows. -/
theorem num_rows_eq_sum_of_stripes (st : Storage) (h : ReachableStorage st) :
    st.num_rows = (st.stripes.map Stripe.num_rows).sum ∧
    (∀ (s : Storage) (n : Nat) (stripe : List (Encoding × List Nat)) (s2 : Storage),
      stripe ≠ [] →
      StorageInserter.append_stripe false s n stripe = Except.ok s2 →
      s2.stripes = s.stripes ++ [⟨s.backend.length, n⟩] ∧
      s2.num_rows = s.num_rows + n) := by
  have hstep : ∀ (s : Storage) (n : Nat) (stripe : List (Encoding × List Nat))
      (s2 : Storage), stripe ≠ [] →
      StorageInserter.append_stripe false s n stripe = Except.ok s2 →
      s2.stripes = s.stripes ++ [⟨s.backend.length, n⟩] ∧
      s2.num_rows = s.num_rows + n := by
    intro s n stripe s2 hne happ
    rcases append_stripe_ok_cases s n stripe s2 happ with ⟨hz, _⟩ | ⟨_, h1, h2, _⟩
    · exact absurd (List.length_eq_zero.mp hz) hne
    · exact ⟨h1, h2⟩
  refine ⟨?_, hstep⟩
  induction h with
  | init backend builder st hinit =>
    rw [init_fields backend builder st hinit]
    rfl
  | append s n stripe s2 _ happ ih =>
    rcases append_stripe_ok_cases s n stripe s2 happ with ⟨_, hs⟩ | ⟨_, h1, h2, _⟩
    · rw [hs]; exact ih
    · rw [h1, h2, ih]
      simp

/-- C7 witness: the invariant at a reachable two-step state (fresh Int32
storage, then one appended stripe). -/
theorem num_rows_eq_sum_of_stripes_witness :
    (⟨0, [⟨"id", ColumnDatatype.int32, ⟨true, true, some 4⟩, 0⟩], [], []⟩ :
        Storage).num_rows
      = (((⟨0, [⟨"id", ColumnDatatype.int32, ⟨true, true, some 4⟩, 0⟩], [], []⟩ :
          Storage).stripes).map Stripe.num_rows).sum :=
  (num_rows_eq_sum_of_stripes _
    (ReachableStorage.init [] [⟨"id", ColumnDatatype.int32⟩] _ rfl)).1

theorem mkColumns_length (builder : List ColumnBuilder) :
    ∀ idx : Nat, (mkColumns builder idx).length = builder.length := by
  induction builder with
  | nil => intro idx; rfl
  | cons cb rest ih => intro idx; simp [mkColumns, ih]

theorem mkColumns_datatype_info (builder : List ColumnBuilder) :
    ∀ (idx : Nat) (c : Column), c ∈ mkColumns builder idx →
      c.datatype_info = DatatypeInfo.new c.datatype := by
  induction builder with
  | nil => intro idx c hc; simp [mkColumns] at hc
  | cons cb rest ih =>
    intro idx c hc
    simp only [mkColumns, List.mem_cons] at hc
    rcases hc with hc | hc
    · subst hc; rfl
    · exact ih (idx + 1) c hc

theorem le_foldl_max (xs : List Nat) : ∀ a : Nat, a ≤ xs.foldl Nat.max a := by
  induction xs with
  | nil => intro a; exact le_refl a
  | cons y ys ih =>
    intro a
    exact le_trans (Nat.le_max_left a y) (ih (Nat.max a y))

theorem foldl_max_le_of_bound (xs : List Nat) :
    ∀ a : Nat, a ≤ 8 → (∀ x ∈ xs, x ≤ 8) → xs.foldl Nat.max a ≤ 8 := by
  induction xs with
  | nil => intro a ha _; exact ha
  | cons y ys ih =>
    intro a ha hall
    exact ih (Nat.max a y)
      (Nat.max_le.mpr ⟨ha, hall y (List.mem_cons_self y ys)⟩)
      (fun x hx => hall x (List.mem_cons_of_mem y hx))

theorem foldl_max_eq_foldr (xs : List Nat) : ∀ x : Nat, 1 ≤ x →
    xs.foldl Nat.max x = Nat.max x (xs.foldr Nat.max 1) := by
  induction xs with
  | nil =>
    intro x hx
    simp [Nat.max_eq_left hx]
  | cons y ys ih =>
    intro x hx
    simp only [List.foldl_cons, List.foldr_cons]
    rw [ih (Nat.max x y) (le_trans hx (Nat.le_max_left x y))]
    exact Nat.max_assoc x y _

theorem numeric_sizes_bounds (builder : List ColumnBuilder) (st : Storage)
    (hcols : st.columns = mkColumns builder 0) :
    ∀ x ∈ (st.columns.filter (fun c => c.datatype_info.is_numeric)).map
        (fun c => c.datatype_info.value_size.getD 0), 1 ≤ x ∧ x ≤ 8 := by
  intro x hx
  rcases List.mem_map.mp hx with ⟨c, hc, hcx⟩
  have hcmem : c ∈ st.columns := List.mem_of_mem_filter hc
  have hnum : c.datatype_info.is_numeric = true := by
    have := List.of_mem_filter hc
    simpa using this
  have hinfo : c.datatype_info = DatatypeInfo.new c.datatype := by
    rw [hcols] at hcmem
    exact mkColumns_datatype_info builder 0 c hcmem
  subst hcx
  rw [hinfo]
  rw [hinfo] at hnum
  cases hdt : c.datatype <;> simp_all [DatatypeInfo.new]

/-- The stripe-row hint both in the spec's formulation (64 * 4096 divided by
the largest numeric value size, defaulting to 1) and bounded away from 0. -/
theorem hint_formula_and_pos (builder : List ColumnBuilder) (st : Storage)
    (hcols : st.columns = mkColumns builder 0) :
    StorageInserter.num_rows_in_stripe_hint st
      = 64 * 4096 / (((st.columns.filter (fun c => c.datatype_info.is_numeric)).map
          (fun c => c.datatype_info.value_size.getD 0)).foldr Nat.max 1) ∧
    0 < StorageInserter.num_rows_in_stripe_hint st := by
  have hbounds := numeric_sizes_bounds builder st hcols
  rw [StorageInserter.num_rows_in_stripe_hint]
  cases hsz : (st.columns.filter (fun c => c.datatype_info.is_numeric)).map
      (fun c => c.datatype_info.value_size.getD 0) with
  | nil => simp
  | cons x xs =>
    rw [hsz] at hbounds
    have hx1 : 1 ≤ x := (hbounds x (List.mem_cons_self x xs)).1
    have hle8 : xs.foldl Nat.max x ≤ 8 :=
      foldl_max_le_of_bound xs x (hbounds x (List.mem_cons_self x xs)).2
        (fun u hu => (hbounds u (List.mem_cons_of_mem x hu)).2)
    have hge1 : 1 ≤ xs.foldl Nat.max x := le_trans hx1 (le_foldl_max xs x)
    constructor
    · simp only [List.foldr_cons]
      rw [foldl_max_eq_foldr xs x hx1]
    · show 0 < 64 * 4096 / (xs.foldl Nat.max x)
      exact Nat.div_pos (by omega) (by omega)

theorem append_stripe_false_isOk (s : Storage) (n : Nat)
    (stripe : List (Encoding × List Nat)) :
    ∃ s2, StorageInserter.append_stripe false s n stripe = Except.ok s2 := by
  by_cases hz : stripe.length = 0
  · exact ⟨s, by rw [StorageInserter.append_stripe, if_pos hz]⟩
  · refine ⟨Storage.append_stripe
        { s with backend := s.backend ++
            serializeStripeHeader (stripeHeaderOf n stripe) ++
            ((compressChunks stripe).map (fun cc => cc.2.2)).flatten }
        { absolute_offset := s.backend.length, num_rows := n }, ?_⟩
    rw [StorageInserter.append_stripe, if_neg hz]
    simp

theorem flush_false_ok (ins : StorageInserter)
    (hG : ins.chunk_generators.length ≠ 0)
    (hne : ins.enqueued_rows.length ≠ 0) :
    ∃ st2, ins.flush false
        = (Except.ok (),
           { ins with storage := st2,
                      chunk_generators :=
                        (appendToGenerators ins.chunk_generators
                          ins.enqueued_rows 0).map ChunkGen.reset,
                      enqueued_rows := [] }) ∧
      st2.num_rows = ins.storage.num_rows + ins.enqueued_rows.length ∧
      st2.stripes.length = ins.storage.stripes.length + 1 ∧
      st2.columns = ins.storage.columns := by
  obtain ⟨s2, hs2⟩ := append_stripe_false_isOk ins.storage ins.enqueued_rows.length
    ((appendToGenerators ins.chunk_generators ins.enqueued_rows 0).map
      ChunkGen.get_encoded_chunk)
  have hlen : ((appendToGenerators ins.chunk_generators ins.enqueued_rows 0).map
      ChunkGen.get_encoded_chunk).length ≠ 0 := by
    rw [List.length_map, appendToGenerators_length]
    exact hG
  rcases append_stripe_ok_cases _ _ _ _ hs2 with ⟨hz, _⟩ | ⟨_, h1, h2, h3⟩
  · exact absurd hz hlen
  · refine ⟨s2, ?_, ?_, ?_, h3⟩
    · rw [StorageInserter.flush, if_neg hne]
      simp only [hs2]
    · rw [h2]
    · rw [h1]
      simp

theorem enqueue_row_ok_cases (ins : StorageInserter) (r : List ColumnValue)
    (hok : (ins.enqueue_row false r).1 = Except.ok ()) :
    r.length = ins.storage.num_columns ∧
    validateRow ins.chunk_generators r = Except.ok () ∧
    (((ins.enqueued_rows ++ [r]).length = ins.max_rows_in_stripe ∧
      ins.enqueue_row false r
        = ({ ins with enqueued_rows := ins.enqueued_rows ++ [r] } :
            StorageInserter).flush false) ∨
     ((ins.enqueued_rows ++ [r]).length ≠ ins.max_rows_in_stripe ∧
      ins.enqueue_row false r
        = (Except.ok (),
           { ins with enqueued_rows := ins.enqueued_rows ++ [r] }))) := by
  by_cases ha : r.length ≠ ins.storage.num_columns
  · exfalso
    have hres : ins.enqueue_row false r
        = (Except.error (StorageError.invalidNumberOfColumns r.length
            ins.storage.num_columns), ins) := by
      simp only [StorageInserter.enqueue_row, if_pos ha]
    rw [hres] at hok
    simp at hok
  · have ha2 : r.length = ins.storage.num_columns := by omega
    cases hv : validateRow ins.chunk_generators r with
    | error e =>
      exfalso
      have hres : ins.enqueue_row false r = (Except.error e, ins) := by
        simp only [StorageInserter.enqueue_row, if_neg ha, hv]
      rw [hres] at hok
      simp at hok
    | ok u =>
      cases u
      refine ⟨ha2, rfl, ?_⟩
      by_cases hb : (ins.enqueued_rows ++ [r]).length = ins.max_rows_in_stripe
      · left
        refine ⟨hb, ?_⟩
        simp only [StorageInserter.enqueue_row, if_neg ha, hv]
        rw [if_pos hb]
      · right
        refine ⟨hb, ?_⟩
        simp only [StorageInserter.enqueue_row, if_neg ha, hv]
        rw [if_neg hb]

/-- The loop invariant of the insertion scenario: after k successful
enqueue_row calls on a fresh inserter whose stripe capacity is M and whose
storage has G column generators, k mod M rows are still buffered and the
storage has recorded the other k - k mod M rows in k / M stripes. -/
def InvState (M G k : Nat) (ins : StorageInserter) : Prop :=
  ins.max_rows_in_stripe = M ∧
  ins.chunk_generators.length = G ∧
  ins.enqueued_rows.length = k % M ∧
  ins.storage.num_rows = k - k % M ∧
  ins.storage.stripes.length = k / M

theorem InvState_enqueue (M G k : Nat) (hM : 0 < M) (hG : 0 < G)
    (ins : StorageInserter) (hinv : InvState M G k ins) (r : List ColumnValue)
    (hok : (ins.enqueue_row false r).1 = Except.ok ()) :
    InvState M G (k + 1) (ins.enqueue_row false r).2 := by
  obtain ⟨h1, h2, h3, h4, h5⟩ := hinv
  obtain ⟨ha, hv, hcase⟩ := enqueue_row_ok_cases ins r hok
  have hmodlt : k % M < M := Nat.mod_lt k hM
  have hdam := Nat.div_add_mod k M
  rcases hcase with ⟨hb, hres⟩ | ⟨hb, hres⟩
  · -- boundary reached: the row buffer fills to M and a stripe is flushed
    have hlen1 : (ins.enqueued_rows ++ [r]).length = k % M + 1 := by simp [h3]
    have hkM : k % M + 1 = M := by rw [← hlen1, hb, h1]
    have hk1 : k + 1 = M * (k / M + 1) := by
      rw [Nat.mul_add, Nat.mul_one]
      omega
    have hmod1 : (k + 1) % M = 0 := by rw [hk1]; exact Nat.mul_mod_right M _
    have hdiv1 : (k + 1) / M = k / M + 1 := by
      rw [hk1]
      exact Nat.mul_div_cancel_left _ hM
    obtain ⟨st2, hfl, hnum, hstr, _⟩ := flush_false_ok
      { ins with enqueued_rows := ins.enqueued_rows ++ [r] }
      (by show ins.chunk_generators.length ≠ 0; omega)
      (by show (ins.enqueued_rows ++ [r]).length ≠ 0; omega)
    rw [hres, hfl]
    refine ⟨h1, ?_, ?_, ?_, ?_⟩
    · show ((appendToGenerators ins.chunk_generators (ins.enqueued_rows ++ [r])
          0).map ChunkGen.reset).length = G
      rw [List.length_map, appendToGenerators_length]
      exact h2
    · show ([] : List (List ColumnValue)).length = (k + 1) % M
      rw [hmod1]
      rfl
    · rw [hnum, hmod1]
      show ins.storage.num_rows + (ins.enqueued_rows ++ [r]).length = k + 1 - 0
      omega
    · rw [hstr, hdiv1]
      show ins.storage.stripes.length + 1 = k / M + 1
      omega
  · -- below the boundary: the row is only buffered
    have hlen1 : (ins.enqueued_rows ++ [r]).length = k % M + 1 := by simp [h3]
    have hkM : k % M + 1 ≠ M := by rw [← hlen1, ← h1]; exact hb
    have hlt : k % M + 1 < M := by omega
    have hk1 : k + 1 = M * (k / M) + (k % M + 1) := by omega
    have hmod1 : (k + 1) % M = k % M + 1 := by
      rw [hk1, Nat.mul_add_mod]
      exact Nat.mod_eq_of_lt hlt
    have hdiv1 : (k + 1) / M = k / M := by
      rw [hk1, Nat.mul_add_div hM, Nat.div_eq_of_lt hlt]
      omega
    rw [hres]
    refine ⟨h1, h2, ?_, ?_, ?_⟩
    · show (ins.enqueued_rows ++ [r]).length = (k + 1) % M
      rw [hmod1]
      exact hlen1
    · show ins.storage.num_rows = (k + 1) - (k + 1) % M
      rw [hmod1]
      omega
    · show ins.storage.stripes.length = (k + 1) / M
      rw [hdiv1]
      exact h5

theorem InvState_enqueueAll (M G : Nat) (hM : 0 < M) (hG : 0 < G)
    (rows : List (List ColumnValue)) :
    ∀ (k : Nat) (ins : StorageInserter), InvState M G k ins →
      (ins.enqueueAll rows).1 = Except.ok () →
      InvState M G (k + rows.length) (ins.enqueueAll rows).2 := by
  induction rows with
  | nil =>
    intro k ins hinv _
    simpa [StorageInserter.enqueueAll] using hinv
  | cons r rs ih =>
    intro k ins hinv hok
    rw [StorageInserter.enqueueAll] at hok ⊢
    cases hres : ins.enqueue_row false r with
    | mk res ins1 =>
      cases res with
      | error e =>
        rw [hres] at hok
        simp at hok
      | ok u =>
        cases u
        rw [hres] at hok
        have hok2 : (ins1.enqueueAll rs).1 = Except.ok () := hok
        have hfirst : (ins.enqueue_row false r).1 = Except.ok () := by
          rw [hres]
        have hstep := InvState_enqueue M G k hM hG ins hinv r hfirst
        rw [hres] at hstep
        have htail := ih (k + 1) ins1 hstep hok2
        show InvState M G (k + (r :: rs).length) (ins1.enqueueAll rs).2
        have harith : k + (r :: rs).length = k + 1 + rs.length := by
          rw [List.length_cons]
          omega
        rw [harith]
        exact htail
theorem ceil_div_of_mod_eq_zero (N M : Nat) (hM : 0 < M) (h : N % M = 0) :
    (N + M - 1) / M = N / M := by
  have hdam := Nat.div_add_mod N M
  have hN : N + M - 1 = M * (N / M) + (M - 1) := by omega
  rw [hN, Nat.mul_add_div hM, Nat.div_eq_of_lt (show M - 1 < M by omega)]
  omega

theorem ceil_div_of_mod_pos (N M : Nat) (hM : 0 < M) (h : N % M ≠ 0) :
    (N + M - 1) / M = N / M + 1 := by
  have hdam := Nat.div_add_mod N M
  have hmlt : N % M < M := Nat.mod_lt N hM
  have hN : N + M - 1 = M * (N / M + 1) + (N % M - 1) := by
    rw [Nat.mul_add, Nat.mul_one]
    omega
  rw [hN, Nat.mul_add_div hM, Nat.div_eq_of_lt (show N % M - 1 < M by omega)]

theorem finish_counts (M G N : Nat) (hM : 0 < M) (hG : 0 < G)
    (ins : StorageInserter) (hinv : InvState M G N ins) :
    ∃ stF, InsertionManager.finish_inserting ins = Except.ok stF ∧
      stF.num_rows = N ∧ stF.stripes.length = (N + M - 1) / M := by
  obtain ⟨h1, h2, h3, h4, h5⟩ := hinv
  rw [InsertionManager.finish_inserting]
  by_cases hz : ins.enqueued_rows.length = 0
  · have hmod : N % M = 0 := by omega
    have hfl : ins.flush false = (Except.ok (), ins) := by
      rw [StorageInserter.flush, if_pos hz]
    rw [hfl]
    refine ⟨ins.storage.write_footer, rfl, ?_, ?_⟩
    · show ins.storage.num_rows = N
      omega
    · show ins.storage.stripes.length = (N + M - 1) / M
      rw [ceil_div_of_mod_eq_zero N M hM hmod]
      exact h5
  · have hmod : N % M ≠ 0 := by omega
    obtain ⟨st2, hfl, hnum, hstr, _⟩ := flush_false_ok ins (by omega) hz
    rw [hfl]
    refine ⟨st2.write_footer, rfl, ?_, ?_⟩
    · show st2.num_rows = N
      rw [hnum]
      have hle : N % M ≤ N := Nat.mod_le N M
      omega
    · show st2.stripes.length = (N + M - 1) / M
      rw [hstr, ceil_div_of_mod_pos N M hM hmod]
      omega

/-- C2 (amended: the Storage must have at least one column; with zero columns
the chunk list is empty, append_stripe skips it, and enqueued rows are lost
-- see the counterexample): after N successful enqueue_row calls on a single
fresh Inserter followed by finish_inserting, the Storage reports
num_rows = N and its stripe directory has exactly ceil(N / max_rows_in_stripe)
entries, where max_rows_in_stripe is computed once at Inserter creation as
(64 * 4096) / max(value_size over the numeric columns, defaulting the
maximum to 1 when there is no numeric column). -/
theorem insert_then_finish_counts (builder : List ColumnBuilder) (st0 : Storage)
    (rows : List (List ColumnValue))
    (hb : builder ≠ [])
    (hinit : StorageBuilder.in_memory builder = Except.ok st0)
    (hok : ((StorageInserter.new st0).enqueueAll rows).1 = Except.ok ()) :
    (StorageInserter.new st0).max_rows_in_stripe
      = 64 * 4096 / (((st0.columns.filter (fun c => c.datatype_info.is_numeric)).map
          (fun c => c.datatype_info.value_size.getD 0)).foldr Nat.max 1) ∧
    ∃ stF, InsertionManager.finish_inserting
        ((StorageInserter.new st0).enqueueAll rows).2 = Except.ok stF ∧
      stF.num_rows = rows.length ∧
      stF.stripes.length
        = (rows.length + (StorageInserter.new st0).max_rows_in_stripe - 1)
            / (StorageInserter.new st0).max_rows_in_stripe := by
  have hfields := init_fields [] builder st0 hinit
  have hcols : st0.columns = mkColumns builder 0 := by rw [hfields]
  obtain ⟨hform, hpos⟩ := hint_formula_and_pos builder st0 hcols
  have hmax : (StorageInserter.new st0).max_rows_in_stripe
      = StorageInserter.num_rows_in_stripe_hint st0 := rfl
  have hG : 0 < st0.columns.length := by
    rw [hcols, mkColumns_length]
    cases builder with
    | nil => exact absurd rfl hb
    | cons b bs => simp
  have hinv0 : InvState (StorageInserter.num_rows_in_stripe_hint st0)
      st0.columns.length 0 (StorageInserter.new st0) := by
    refine ⟨rfl, ?_, ?_, ?_, ?_⟩
    · show (st0.columns.map (fun c =>
        get_chunk_generator_for_datatype c.datatype)).length = st0.columns.length
      rw [List.length_map]
    · show ([] : List (List ColumnValue)).length = 0 % _
      rw [Nat.zero_mod]
      rfl
    · show st0.num_rows = 0 - 0 % _
      rw [hfields]
      simp
    · show st0.stripes.length = 0 / _
      rw [hfields]
      simp
  have hinvN := InvState_enqueueAll (StorageInserter.num_rows_in_stripe_hint st0)
    st0.columns.length hpos hG rows 0 (StorageInserter.new st0) hinv0 hok
  rw [Nat.zero_add] at hinvN
  obtain ⟨stF, hfin, hnum, hstripes⟩ := finish_counts _ _ _ hpos hG _ hinvN
  exact ⟨hform, stF, hfin, hnum, hstripes⟩

/-- C2 (counterexample to the claim as stated, at a zero-column Storage): one
successful enqueue_row of the empty row followed by finish_inserting leaves
num_rows = 0 and an empty stripe directory, although the claim requires
num_rows = 1 and ceil(1 / max_rows_in_stripe) = 1 directory entry: with no
columns the encoded-chunk list is empty, append_stripe silently skips it,
and the row is dropped. -/
theorem zero_column_insert_loses_rows :
    StorageBuilder.in_memory [] = Except.ok (⟨0, [], [], []⟩ : Storage) ∧
    ((StorageInserter.new ⟨0, [], [], []⟩).enqueueAll [[]]).1 = Except.ok () ∧
    InsertionManager.finish_inserting
        ((StorageInserter.new ⟨0, [], [], []⟩).enqueueAll [[]]).2
      = Except.ok ⟨0, [], storageSignature, []⟩ ∧
    (StorageInserter.new (⟨0, [], [], []⟩ : Storage)).max_rows_in_stripe = 262144 ∧
    (1 + 262144 - 1) / 262144 = 1 ∧
    (0 : Nat) ≠ 1 := by
  refine ⟨by rfl, by rfl, by rfl, by rfl, by rfl, by decide⟩

/-- C2 witness: three rows into a one-Int32-column storage. -/
theorem insert_then_finish_counts_witness :
    ([⟨"id", ColumnDatatype.int32⟩] : List ColumnBuilder) ≠ [] ∧
    (∃ stF, InsertionManager.finish_inserting
        ((StorageInserter.new
          ⟨0, [⟨"id", ColumnDatatype.int32, ⟨true, true, some 4⟩, 0⟩], [], []⟩).enqueueAll
            [[ColumnValue.int32 1], [ColumnValue.int32 2], [ColumnValue.int32 3]]).2
      = Except.ok stF ∧
      stF.num_rows = 3 ∧
      stF.stripes.length
        = (3 + (StorageInserter.new
            ⟨0, [⟨"id", ColumnDatatype.int32, ⟨true, true, some 4⟩, 0⟩], [],
             []⟩).max_rows_in_stripe - 1)
            / (StorageInserter.new
                ⟨0, [⟨"id", ColumnDatatype.int32, ⟨true, true, some 4⟩, 0⟩], [],
                 []⟩).max_rows_in_stripe) := by
  have h := insert_then_finish_counts [⟨"id", ColumnDatatype.int32⟩]
    ⟨0, [⟨"id", ColumnDatatype.int32, ⟨true, true, some 4⟩, 0⟩], [], []⟩
    [[ColumnValue.int32 1], [ColumnValue.int32 2], [ColumnValue.int32 3]]
    (by decide) (by rfl) (by rfl)
  exact ⟨by decide, h.2⟩

/-- C4 witness: a fixed-length generator of width 2 over one null and one
present value. -/
theorem encoded_chunk_sizes_witness :
    (∀ v ∈ [ColumnValue.null, ColumnValue.fixedLength [1, 2]],
      (ChunkGen.fixedLength 2 [] []).validate_value v = Except.ok ()) ∧
    ((ChunkGen.fixedLength 2 [] []).append_values
        [ColumnValue.null, ColumnValue.fixedLength [1, 2]]).get_encoded_chunk.2.length
      = ([ColumnValue.null, ColumnValue.fixedLength [1, 2]] : List ColumnValue).length
        + 2 * (([ColumnValue.null, ColumnValue.fixedLength [1, 2]] :
            List ColumnValue).filter (fun v => !v.isNull)).length :=
  ⟨by decide, encoded_chunk_sizes.2.1 2
    [ColumnValue.null, ColumnValue.fixedLength [1, 2]] (by decide)⟩
